import Mathlib

/-!
Shallow embedding of the class-based synchronizer of `sync-content.js`
(classes `DriveService`, `ContentProcessor`, `GitService`,
`GitProviderService`, `ContentSynchronizer`, source lines 745-1779) and
proofs about the claims on its staleness check, metadata codec, pipeline
orchestration and version-control automation.

Modelling conventions:
 * JavaScript `Date` values are `JsDate := Option DateRec`: `some r` is a
   valid date with calendar components `r`, `none` is an Invalid Date
   (`new Date(<unparseable>)`).  For in-range components the
   lexicographic component order agrees with the epoch-milliseconds
   order JS comparisons use; `dateKey` realizes that order.
 * `new Date(string)` is `parseJsDate`, which accepts exactly the strict
   `YYYY-MM-DDTHH:MM:SS.mmmZ` shape that `Date.prototype.toISOString`
   emits (with basic range checks, as the ES ISO parser performs).  All
   date strings this program constructs have that shape; strings with no
   digits (such as the corruption witnesses below) are Invalid Dates in
   JS exactly as here.
 * Fallible collaborator calls (filesystem, Google Drive, git, the
   Gemini transformer, the forge API) are oracle functions in an `Env`
   record returning `Except String`; a JS `throw` is `.error`.
 * External side effects are recorded as an `Event` trace.
-/

/-- Calendar components of a valid JS `Date` (UTC), as printed by
`toISOString`. -/
structure DateRec where
  y : Nat
  mo : Nat
  d : Nat
  h : Nat
  mi : Nat
  s : Nat
  ms : Nat
deriving DecidableEq, Repr

/-- A JS `Date` value: `none` is an Invalid Date (its time value is NaN). -/
abbrev JsDate := Option DateRec

/-- Strictly monotone encoding of the chronological (epoch-milliseconds)
order on in-range calendar components. -/
def dateKey (t : DateRec) : Nat :=
  t.ms + 1000 * (t.s + 60 * (t.mi + 60 * (t.h + 24 * (t.d + 32 * (t.mo + 13 * t.y)))))

/-- JS `dateA > dateB` on `Date` values: comparison of the underlying time
values; any comparison with NaN (an Invalid Date) is false. -/
def jsDateGt : JsDate → JsDate → Bool
  | some a, some b => dateKey a > dateKey b
  | _, _ => false

/-- Component ranges accepted by the ES ISO-format date parser (and always
satisfied by `toISOString` output). -/
def isValidRec (t : DateRec) : Bool :=
  t.y < 10000 && 1 ≤ t.mo && t.mo ≤ 12 && 1 ≤ t.d && t.d ≤ 31 &&
    t.h ≤ 23 && t.mi ≤ 59 && t.s ≤ 59 && t.ms ≤ 999

/-- Decimal digit character for a digit value. -/
def dch (n : Nat) : Char := Char.ofNat (48 + n)

/-- Digit value of a character, if it is a decimal digit. -/
def digitVal (c : Char) : Option Nat :=
  if '0' ≤ c ∧ c ≤ '9' then some (c.toNat - 48) else none

/-- Two-digit zero-padded decimal print (`String(n).padStart(2, '0')` for
`n < 100`). -/
def pad2 (n : Nat) : List Char := [dch (n / 10 % 10), dch (n % 10)]

/-- Three-digit zero-padded decimal print of the milliseconds field. -/
def pad3 (n : Nat) : List Char := [dch (n / 100 % 10), dch (n / 10 % 10), dch (n % 10)]

/-- Four-digit zero-padded decimal print of the year field. -/
def pad4 (n : Nat) : List Char :=
  [dch (n / 1000 % 10), dch (n / 100 % 10), dch (n / 10 % 10), dch (n % 10)]

/-- JS `Date.prototype.toISOString` for a valid date:
`YYYY-MM-DDTHH:MM:SS.mmmZ`. -/
def toISOString (t : DateRec) : String :=
  String.mk (pad4 t.y ++ '-' :: pad2 t.mo ++ '-' :: pad2 t.d ++ 'T' :: pad2 t.h ++
    ':' :: pad2 t.mi ++ ':' :: pad2 t.s ++ '.' :: pad3 t.ms ++ ['Z'])

/-- JS `new Date(string)` restricted to the strict ISO shape produced by
`toISOString`; anything else (in particular any digit-free string) is an
Invalid Date, i.e. `none`. -/
def parseJsDate (str : String) : JsDate :=
  match str.data with
  | [c1, c2, c3, c4, '-', c5, c6, '-', c7, c8, 'T', c9, c10, ':', c11, c12, ':',
     c13, c14, '.', c15, c16, c17, 'Z'] =>
    match digitVal c1, digitVal c2, digitVal c3, digitVal c4, digitVal c5, digitVal c6,
      digitVal c7, digitVal c8, digitVal c9, digitVal c10, digitVal c11, digitVal c12,
      digitVal c13, digitVal c14, digitVal c15, digitVal c16, digitVal c17 with
    | some y1, some y2, some y3, some y4, some o1, some o2, some d1, some d2,
      some h1, some h2, some i1, some i2, some e1, some e2, some m1, some m2, some m3 =>
      let t : DateRec :=
        { y := 1000 * y1 + 100 * y2 + 10 * y3 + y4, mo := 10 * o1 + o2, d := 10 * d1 + d2,
          h := 10 * h1 + h2, mi := 10 * i1 + i2, s := 10 * e1 + e2,
          ms := 100 * m1 + 10 * m2 + m3 }
      if isValidRec t then some t else none
    | _, _, _, _, _, _, _, _, _, _, _, _, _, _, _, _, _ => none
  | _ => none

theorem digitVal_dch {n : Nat} (h : n < 10) : digitVal (dch n) = some n := by
  interval_cases n <;> rfl

theorem dch_not_ws {n : Nat} (h : n < 10) :
    dch n ≠ ' ' ∧ dch n ≠ '\n' ∧ dch n ≠ '\t' ∧ dch n ≠ '\r' := by
  interval_cases n <;> exact ⟨by decide, by decide, by decide, by decide⟩

/-- Printing then parsing a valid date recovers it exactly (so to
millisecond precision, stronger than the second precision the spec asks
for). -/
theorem parseJsDate_toISOString {t : DateRec} (h : isValidRec t = true) :
    parseJsDate (toISOString t) = some t := by
  obtain ⟨y, mo, d, hh, mi, s, ms⟩ := t
  simp only [isValidRec, Bool.and_eq_true, decide_eq_true_eq] at h
  obtain ⟨⟨⟨⟨⟨⟨⟨⟨hy, hmo1⟩, hmo2⟩, hd1⟩, hd2⟩, hh'⟩, hmi⟩, hs⟩, hms⟩
    := h
  have h10 : ∀ k : Nat, k % 10 < 10 := fun k => Nat.mod_lt _ (by omega)
  simp only [toISOString, parseJsDate, pad4, pad2, pad3, List.cons_append, List.nil_append]
  simp only [digitVal_dch (h10 _)]
  have hy4 : 1000 * (y / 1000 % 10) + 100 * (y / 100 % 10) + 10 * (y / 10 % 10) + y % 10
      = y := by omega
  have hmo' : 10 * (mo / 10 % 10) + mo % 10 = mo := by omega
  have hd' : 10 * (d / 10 % 10) + d % 10 = d := by omega
  have hh'' : 10 * (hh / 10 % 10) + hh % 10 = hh := by omega
  have hmi' : 10 * (mi / 10 % 10) + mi % 10 = mi := by omega
  have hs' : 10 * (s / 10 % 10) + s % 10 = s := by omega
  have hms' : 100 * (ms / 100 % 10) + 10 * (ms / 10 % 10) + ms % 10 = ms := by omega
  simp only [hy4, hmo', hd', hh'', hmi', hs', hms']
  have hv : isValidRec ⟨y, mo, d, hh, mi, s, ms⟩ = true := by
    simp [isValidRec]; omega
  simp [hv]

/-! ## Metadata codec (`ContentProcessor.createMetadataComment` /
`ContentProcessor.extractMetadata`, lines 1015-1041)

`extractMetadata` runs the JS regex
`/<!--\s*SYNC_METADATA:\s*last_sync:\s*(.+?)\s*source_files:\s*(.+?)\s*-->/s`
on the document.  The model below implements exactly the backtracking
search of that regex: start positions are tried left to right; each
greedy `\s*` before a literal is deterministic because every literal
starts with a non-whitespace character; each `\s*(.+?)\s*LIT` segment
tries the preceding whitespace count from its maximum down to zero and,
inside that, the lazy group from one character upwards, succeeding as
soon as skipping whitespace after the group reaches the literal (`.`
matches newlines because of the `/s` flag). -/

/-- JS `\s` on the characters this program can encounter. -/
def jsWs (c : Char) : Bool :=
  c = ' ' || c = '\n' || c = '\t' || c = '\r' || c = '\x0b' || c = '\x0c'

/-- Drop the maximal whitespace prefix (the deterministic reading of a
greedy `\s*` followed by a literal that starts with non-whitespace). -/
def skipWsL : List Char → List Char
  | [] => []
  | c :: cs => if jsWs c then skipWsL cs else c :: cs

/-- Length of the maximal whitespace prefix. -/
def wsCount : List Char → Nat
  | [] => 0
  | c :: cs => if jsWs c then wsCount cs + 1 else 0

/-- Does `s` start with the literal `lit`? -/
def startsWithL : List Char → List Char → Bool
  | [], _ => true
  | _ :: _, [] => false
  | l :: ls, c :: cs => l = c && startsWithL ls cs

/-- JS `String.prototype.startsWith` (as a list-level check, so that
concrete witnesses evaluate inside the kernel). -/
def jsStartsWith (s pre : String) : Bool := startsWithL pre.data s.data

/-- JS `String.prototype.endsWith`. -/
def jsEndsWith (s suf : String) : Bool := startsWithL suf.data.reverse s.data.reverse

/-- Consume the literal `lit` from the front of `s`, if present. -/
def stripLit : List Char → List Char → Option (List Char)
  | [], s => some s
  | _ :: _, [] => none
  | l :: ls, c :: cs => if l = c then stripLit ls cs else none

/-- The lazy group `(.+?)\s*LIT` at a fixed start: grow the group one
character at a time; after each character, if skipping whitespace reaches
`lit`, succeed with the group and the text after `lit`. -/
def tryK (lit : List Char) : List Char → List Char → Option (List Char × List Char)
  | _, [] => none
  | acc, c :: cs =>
    if startsWithL lit (skipWsL cs) then
      some ((c :: acc).reverse, (skipWsL cs).drop lit.length)
    else tryK lit (c :: acc) cs

/-- The `\s*(.+?)\s*LIT` segment: try the greedy `\s*` from `a` consumed
whitespace characters downwards (JS backtracks the outermost greedy
quantifier last), running the lazy group search after each choice. -/
def lazyMatch (lit : List Char) (s : List Char) : Nat → Option (List Char × List Char)
  | 0 => tryK lit [] s
  | a + 1 =>
    match tryK lit [] (s.drop (a + 1)) with
    | some r => some r
    | none => lazyMatch lit s a

/-- Entry point for `\s*(.+?)\s*LIT`: the greedy `\s*` first consumes the
whole whitespace prefix. -/
def matchLazyFull (lit : List Char) (s : List Char) : Option (List Char × List Char) :=
  lazyMatch lit s (wsCount s)

/-- Attempt the full metadata pattern at one start position; returns the
two capture groups. -/
def matchMetaAt (s : List Char) : Option (List Char × List Char) :=
  match stripLit "<!--".data s with
  | none => none
  | some s1 =>
    match stripLit "SYNC_METADATA:".data (skipWsL s1) with
    | none => none
    | some s2 =>
      match stripLit "last_sync:".data (skipWsL s2) with
      | none => none
      | some s3 =>
        match matchLazyFull "source_files:".data s3 with
        | none => none
        | some (g1, s4) =>
          match matchLazyFull "-->".data s4 with
          | none => none
          | some (g2, _) => some (g1, g2)

/-- Scan start positions left to right (JS `String.prototype.match`). -/
def scanMeta : List Char → Option (List Char × List Char)
  | [] => none
  | c :: cs =>
    match matchMetaAt (c :: cs) with
    | some r => some r
    | none => scanMeta cs

/-- The decoded watermark: `{ lastSync: new Date(match[1]), sourceFiles:
match[2] }` (line 1034).  `lastSync` is a `Date` object — possibly an
Invalid Date — and `sourceFiles` is the raw captured string. -/
structure SyncMetadata where
  lastSync : JsDate
  sourceFiles : String
deriving DecidableEq, Repr

/-- `ContentProcessor.extractMetadata` (lines 1029-1041): regex match, or
`null` when the pattern does not occur.  It is a total function — parse
failure is represented in the result, never thrown. -/
def extractMetadata (content : String) : Option SyncMetadata :=
  match scanMeta content.data with
  | some (g1, g2) =>
    some { lastSync := parseJsDate (String.mk g1), sourceFiles := String.mk g2 }
  | none => none

/-- One file entry of a Drive listing (`files(id, name, mimeType,
modifiedTime)`); `modifiedTime` is the RFC3339 string the Drive API
returns. -/
structure DriveFile where
  id : String
  name : String
  mimeType : String
  modifiedTime : String
deriving DecidableEq, Repr

/-- The serialized manifest: `files.map(f => `..name (id)`).join(', ')`
(line 1016). -/
def fileListString (files : List DriveFile) : String :=
  String.intercalate ", " (files.map fun f => f.name ++ " (" ++ f.id ++ ")")

/-- `ContentProcessor.createMetadataComment` (lines 1015-1024): the
watermark block appended after the document body. -/
def createMetadataComment (files : List DriveFile) (timestamp : DateRec) : String :=
  "<!-- \nSYNC_METADATA:\nlast_sync: " ++ toISOString timestamp ++
    "\nsource_files: " ++ fileListString files ++ "\n-->\n\n"

/-! ## Pure string helpers of `ContentSynchronizer` -/

/-- Lazy `.*?-->` tail of the strip regex (line 1515): consume up to and
including the first occurrence of the closing arrow. -/
def dropThroughArrow : List Char → Option (List Char)
  | [] => none
  | c :: cs =>
    if startsWithL "-->".data (c :: cs) then some ((c :: cs).drop 3)
    else dropThroughArrow cs

/-- Attempt `<!--\s*SYNC_METADATA:.*?-->` at one start position, returning
the text after the match. -/
def matchStripAt (s : List Char) : Option (List Char) :=
  match stripLit "<!--".data s with
  | none => none
  | some s1 =>
    match stripLit "SYNC_METADATA:".data (skipWsL s1) with
    | none => none
    | some s2 => dropThroughArrow s2

/-- Scan of `String.prototype.replace` with a non-global regex: replace the
leftmost match with the empty string. -/
def stripMetaGo (acc : List Char) : List Char → List Char
  | [] => acc.reverse
  | c :: cs =>
    match matchStripAt (c :: cs) with
    | some rest => acc.reverse ++ rest
    | none => stripMetaGo (c :: acc) cs

/-- `content.replace(/<!--\s*SYNC_METADATA:.*?-->/s, '')` (line 1515),
used to strip the old watermark before handing the document to the
transformer. -/
def stripSyncMetadata (content : String) : String :=
  String.mk (stripMetaGo [] content.data)

/-- JS `String.prototype.trim`. -/
def trimJs (s : String) : String :=
  String.mk ((skipWsL (skipWsL s.data).reverse).reverse)

/-- JS `String.prototype.toLowerCase` (ASCII; every name these claims
evaluate is ASCII, where JS and `Char.toLower` agree). -/
def toLowerJs (s : String) : String := String.mk (s.data.map Char.toLower)

/-- Character class `[a-zA-Z0-9\/]` kept by `sanitizeFolderName`. -/
def keepFolderChar (c : Char) : Bool :=
  ('a' ≤ c && c ≤ 'z') || ('A' ≤ c && c ≤ 'Z') || ('0' ≤ c && c ≤ '9') || c = '/'

/-- Replace every maximal run of characters failing `p` by the single
character `rep` (a global `/[^...]+/g` replacement).  The flag tracks
whether the previous character was part of such a run. -/
def collapseRuns (p : Char → Bool) (rep : Char) : Bool → List Char → List Char
  | _, [] => []
  | inRun, c :: cs =>
    if p c then c :: collapseRuns p rep false cs
    else if inRun then collapseRuns p rep true cs
    else rep :: collapseRuns p rep true cs

/-- `.replace(/^-|-$/g, '')`: remove one leading and one trailing dash. -/
def stripEdgeDash (l : List Char) : List Char :=
  let l1 := match l with
    | '-' :: rest => rest
    | other => other
  match l1.reverse with
  | '-' :: rest => rest.reverse
  | _ => l1

/-- `ContentSynchronizer.sanitizeFolderName` (lines 1706-1711). -/
def sanitizeFolderName (name : String) : String :=
  String.mk (stripEdgeDash (collapseRuns keepFolderChar '-' false (toLowerJs name).data))

/-- Character class `[a-zA-Z0-9.-]` kept by `sanitizeFileName`. -/
def keepFileChar (c : Char) : Bool :=
  ('a' ≤ c && c ≤ 'z') || ('A' ≤ c && c ≤ 'Z') || ('0' ≤ c && c ≤ '9') || c = '.' || c = '-'

/-- `ContentSynchronizer.sanitizeFileName` (lines 1716-1720): first
replace every character outside `[a-zA-Z0-9.-]` by an underscore, then
replace whitespace runs by an underscore (a no-op after the first step,
kept for faithfulness). -/
def sanitizeFileName (name : String) : String :=
  let step1 := name.data.map fun c => if keepFileChar c then c else '_'
  String.mk (collapseRuns (fun c => !(jsWs c)) '_' false step1)

/-- `ContentSynchronizer.getImageExtension` (lines 1725-1734): lookup
table with `.jpg` fallback. -/
def getImageExtension (mimeType : String) : String :=
  if mimeType = "image/jpeg" then ".jpg"
  else if mimeType = "image/png" then ".png"
  else if mimeType = "image/gif" then ".gif"
  else if mimeType = "image/webp" then ".webp"
  else if mimeType = "image/svg+xml" then ".svg"
  else ".jpg"

/-- The recognized image extensions of `getImageExtensionIfNeeded`
(line 1743). -/
def imageExtensions : List String := [".jpg", ".jpeg", ".png", ".gif", ".webp", ".svg"]

/-- `ContentSynchronizer.getImageExtensionIfNeeded` (lines 1740-1756):
empty when the lower-cased name already ends in a recognized image
extension, otherwise the extension for the media type. -/
def getImageExtensionIfNeeded (fileName mimeType : String) : String :=
  if imageExtensions.any (fun ext => jsEndsWith (toLowerJs fileName) ext) then ""
  else getImageExtension mimeType

/-! ## Staleness check (`DriveService.getLatestModifiedTime`, lines
908-928, and `ContentSynchronizer.checkIfUpdateNeeded`, lines 1550-1589) -/

/-- One step of the `reduce` in `getLatestModifiedTime` (lines 917-921):
keep the file whose `modifiedTime` parses to the later date (ties and NaN
comparisons keep the accumulator). -/
def pickLatest (latest file : DriveFile) : DriveFile :=
  if jsDateGt (parseJsDate file.modifiedTime) (parseJsDate latest.modifiedTime) then file
  else latest

/-- `DriveService.getLatestModifiedTime` applied to an already-fetched
listing: `null` (outer `none`) for an empty folder, otherwise
`new Date(latestFile.modifiedTime)`; the `reduce` starts from `files[0]`
and revisits every element. -/
def getLatestModifiedTime (files : List DriveFile) : Option JsDate :=
  match files with
  | [] => none
  | f :: _ => some (parseJsDate (List.foldl pickLatest f files).modifiedTime)

/-- JS truthiness of a `Date` object: every object — even an Invalid
Date — is truthy, so the `!localMetadata.lastSync` guard at line 1565 can
never fire once metadata was parsed. -/
def jsDateFalsy (_d : JsDate) : Bool := false

/-- Body of `ContentSynchronizer.checkIfUpdateNeeded` without its outer
catch-all: the first argument is the `fs.readFile(mdFilePath)` outcome
(its failure is handled by the inner catch at line 1558 and yields
`true`), the second the `DriveService.listFiles(folder.id)` outcome whose
failure propagates out of `getLatestModifiedTime`. -/
def checkIfUpdateNeededE (readRes : Except String String)
    (listRes : Except String (List DriveFile)) : Except String Bool :=
  match readRes with
  | .error _ => .ok true
  | .ok content =>
    match extractMetadata content with
    | none => .ok true
    | some localMetadata =>
      if jsDateFalsy localMetadata.lastSync then .ok true
      else
        match listRes with
        | .error e => .error e
        | .ok files =>
          match getLatestModifiedTime files with
          | none => .ok false
          | some driveModifiedTime => .ok (jsDateGt driveModifiedTime localMetadata.lastSync)

/-- `ContentSynchronizer.checkIfUpdateNeeded` with its outer catch
(lines 1584-1588): any error inside the body yields `true`. -/
def checkIfUpdateNeeded (readRes : Except String String)
    (listRes : Except String (List DriveFile)) : Bool :=
  match checkIfUpdateNeededE readRes listRes with
  | .ok b => b
  | .error _ => true

/-- Does the body of the check reach the Drive listing call?  (Used to
place the listing event in the orchestrator's trace.) -/
def checkListsDrive (readRes : Except String String) : Bool :=
  match readRes with
  | .error _ => false
  | .ok content => (extractMetadata content).isSome

/-! ## Collaborator model and event traces -/

/-- One entry of `status.files` from simple-git. -/
structure StatusFile where
  path : String
deriving DecidableEq, Repr

/-- The parts of a simple-git `status()` result this program reads. -/
structure GitStatus where
  current : String
  files : List StatusFile
deriving DecidableEq, Repr

/-- A loaded reference-context document (lines 1336-1340). -/
structure CtxDoc where
  name : String
  content : String
  type : String
deriving DecidableEq, Repr

/-- A recorded image reference (lines 1625-1628). -/
structure ImageRef where
  name : String
  path : String
deriving DecidableEq, Repr

/-- Observable external calls, recorded in program order.  Calls are
recorded when attempted; `fsWrite` is recorded when a write succeeds. -/
inductive Event where
  | gitStatus
  | gitRemoteSetup
  | gitPull (branch : String)
  | gitCheckoutNew (branch : String)
  | gitAdd
  | gitCommit
  | gitPush (branch : String)
  | forgeCreateMR (source : String) (target : String)
  | gitCheckout (branch : String)
  | driveListFolders
  | driveListFiles (folderId : String)
  | driveDownload (fileId : String)
  | aiTransform
  | fsWrite (path : String)
deriving DecidableEq, Repr

/-- Oracle for every external collaborator: configuration, filesystem,
Google Drive, the Gemini transformer, git and the forge API.  `.error`
is a JS exception from that call. -/
structure Env where
  configOk : Bool
  repoPath : String
  contentPath : String
  driveFolderId : String
  now : DateRec
  readFile : String → Except String String
  listFiles : String → Except String (List DriveFile)
  listFolders : Except String (List DriveFile)
  downloadDoc : String → Except String String
  downloadSheet : String → Except String String
  downloadImage : String → Except String String
  transform : String → List ImageRef → Option String → List CtxDoc → Except String String
  mkdir : String → Except String Unit
  writeFile : String → String → Except String Unit
  gitStatus : Except String GitStatus
  pull : String → Except String Unit
  checkoutNew : String → Except String Unit
  add : Except String Unit
  statusAfterAdd : Except String GitStatus
  commit : Except String Unit
  push : String → Except String Unit
  createMR : String → String → Except String Unit
  checkout : String → Except String Unit

/-! ## Version-control automation (`GitService`, lines 1048-1226,
`GitProviderService`, lines 1232-1280) -/

/-- `GitService.returnToBranch` (lines 1217-1225): best-effort checkout;
the catch logs and swallows any failure, so the result is always `ok`. -/
def returnToBranch (env : Env) (branchName : String) : Except String Unit × List Event :=
  match env.checkout branchName with
  | .ok _ => (.ok (), [.gitCheckout branchName])
  | .error _ => (.ok (), [.gitCheckout branchName])

/-- `GitService.createBranch` (lines 1150-1170): current branch via
`status()`, `ensureSyncRemote` (which catches all its own errors,
lines 1127-1131), `pull`, `checkoutLocalBranch`; returns the base
branch. -/
def createBranch (env : Env) (branchName : String) : Except String String × List Event :=
  match env.gitStatus with
  | .error e => (.error e, [.gitStatus])
  | .ok st =>
    match env.pull st.current with
    | .error e => (.error e, [.gitStatus, .gitRemoteSetup, .gitPull st.current])
    | .ok _ =>
      match env.checkoutNew branchName with
      | .error e =>
        (.error e, [.gitStatus, .gitRemoteSetup, .gitPull st.current, .gitCheckoutNew branchName])
      | .ok _ =>
        (.ok st.current, [.gitStatus, .gitRemoteSetup, .gitPull st.current, .gitCheckoutNew branchName])

/-- `GitService.commitChanges` (lines 1175-1196): `add('.')`, then
`status()`; returns `false` without committing when nothing is staged,
otherwise commits and returns `true`. -/
def commitChanges (env : Env) : Except String Bool × List Event :=
  match env.add with
  | .error e => (.error e, [.gitAdd])
  | .ok _ =>
    match env.statusAfterAdd with
    | .error e => (.error e, [.gitAdd, .gitStatus])
    | .ok st =>
      if st.files.isEmpty then (.ok false, [.gitAdd, .gitStatus])
      else
        match env.commit with
        | .error e => (.error e, [.gitAdd, .gitStatus, .gitCommit])
        | .ok _ => (.ok true, [.gitAdd, .gitStatus, .gitCommit])

/-- `GitService.pushBranch` (lines 1201-1212). -/
def pushBranch (env : Env) (branchName : String) : Except String Unit × List Event :=
  (env.push branchName, [.gitPush branchName])

/-- `GitProviderService.createMergeRequest` (lines 1257-1279). -/
def createMergeRequest (env : Env) (sourceBranch targetBranch : String) :
    Except String Unit × List Event :=
  (env.createMR sourceBranch targetBranch, [.forgeCreateMR sourceBranch targetBranch])

/-- Replace every colon by a dash (`.replace(/[:]/g, '-')`). -/
def replaceColons (l : List Char) : List Char :=
  l.map fun c => if c = ':' then '-' else c

/-- Remove the first `[.]\d+` occurrence (`.replace(/[.]\d+/, '')`). -/
def removeDotDigits : List Char → List Char
  | [] => []
  | '.' :: rest =>
    match rest with
    | d :: ds => if d.isDigit then ds.dropWhile Char.isDigit else '.' :: removeDotDigits (d :: ds)
    | [] => ['.']
  | c :: rest => c :: removeDotDigits rest

/-- The branch name derived from the wall clock (line 1647). -/
def branchNameOf (t : DateRec) : String :=
  "contentupdate/" ++ String.mk (removeDotDigits (replaceColons (toISOString t).data))

/-- `ContentSynchronizer.createAndSubmitMergeRequest` (lines 1644-1701).
Returns the outcome, the event trace, and the value `this.baseBranch` was
set to (``none`` when `createBranch` failed before the assignment at
line 1652).  The commit message and merge-request text built from
`_processedFolders` are not modelled. -/
def createAndSubmitMergeRequest (env : Env) (_processedFolders : List String) :
    Except String Unit × List Event × Option String :=
  let branchName := branchNameOf env.now
  match createBranch env branchName with
  | (.error e, ev) => (.error e, ev, none)
  | (.ok baseBranch, ev) =>
    match commitChanges env with
    | (.error e, ev2) => (.error e, ev ++ ev2, some baseBranch)
    | (.ok false, ev2) =>
      -- Line 1665: `await this.gitService.returnToMain();` — `GitService` declares no
      -- `returnToMain` method (its only checkout helper is `returnToBranch`), so the
      -- call raises a TypeError which the catch at line 1697 logs and re-throws.
      (.error "TypeError: this.gitService.returnToMain is not a function",
        ev ++ ev2, some baseBranch)
    | (.ok true, ev2) =>
      match pushBranch env branchName with
      | (.error e, ev3) => (.error e, ev ++ ev2 ++ ev3, some baseBranch)
      | (.ok _, ev3) =>
        match createMergeRequest env branchName baseBranch with
        | (.error e, ev4) => (.error e, ev ++ ev2 ++ ev3 ++ ev4, some baseBranch)
        | (.ok _, ev4) =>
          let r := returnToBranch env baseBranch
          (.ok (), ev ++ ev2 ++ ev3 ++ ev4 ++ r.2, some baseBranch)

/-! ## Per-unit pipeline (`ContentSynchronizer`, lines 1286-1639) -/

/-- Mime filter for reference-context documents (lines 1310-1313). -/
def isCtxMime (m : String) : Bool :=
  m = "application/vnd.google-apps.document" || m = "application/vnd.google-apps.spreadsheet"

/-- Load one reference-context file; the per-file catch (line 1343) turns
a failed download into an omitted document. -/
def loadCtxFile (env : Env) (f : DriveFile) : Option CtxDoc × List Event :=
  if f.mimeType = "application/vnd.google-apps.document" then
    match env.downloadDoc f.id with
    | .ok content => (some ⟨f.name, content, f.mimeType⟩, [.driveDownload f.id])
    | .error _ => (none, [.driveDownload f.id])
  else
    match env.downloadSheet f.id with
    | .ok content => (some ⟨f.name, content, f.mimeType⟩, [.driveDownload f.id])
    | .error _ => (none, [.driveDownload f.id])

/-- Loop body of the context-loading fold. -/
def ctxFold (env : Env) (acc : List CtxDoc × List Event) (f : DriveFile) :
    List CtxDoc × List Event :=
  (acc.1 ++ (loadCtxFile env f).1.toList, acc.2 ++ (loadCtxFile env f).2)

/-- `ContentSynchronizer.loadContextDocuments` (lines 1302-1357): list the
root, keep documents and spreadsheets, load each best-effort; a failure
of the listing itself is caught and yields the empty context. -/
def loadContextDocuments (env : Env) : List CtxDoc × List Event :=
  match env.listFiles env.driveFolderId with
  | .error _ => ([], [.driveListFiles env.driveFolderId])
  | .ok allFiles =>
    let contextFiles := allFiles.filter fun f => isCtxMime f.mimeType
    let loaded := contextFiles.foldl (ctxFold env) (([] : List CtxDoc), ([] : List Event))
    (loaded.1, .driveListFiles env.driveFolderId :: loaded.2)

/-- Loop body of `ContentSynchronizer.processFiles` (lines 1594-1639):
per kind, documents and spreadsheets append exported text, images are
downloaded and written under the sanitized extension-normalized name;
the per-file catch (line 1633) swallows any failure; unknown kinds are
ignored. -/
def processFilesGo (env : Env) (assetsDir fileSlug : String) :
    List DriveFile → String → List ImageRef → List Event →
      String × List ImageRef × List Event
  | [], textContent, images, ev => (textContent, images, ev)
  | file :: rest, textContent, images, ev =>
    if file.mimeType = "application/vnd.google-apps.document" then
      match env.downloadDoc file.id with
      | .ok content =>
        processFilesGo env assetsDir fileSlug rest
          (textContent ++ "\n\n## " ++ file.name ++ "\n\n" ++ content) images
          (ev ++ [.driveDownload file.id])
      | .error _ =>
        processFilesGo env assetsDir fileSlug rest textContent images
          (ev ++ [.driveDownload file.id])
    else if file.mimeType = "application/vnd.google-apps.spreadsheet" then
      match env.downloadSheet file.id with
      | .ok content =>
        processFilesGo env assetsDir fileSlug rest
          (textContent ++ "\n\n## " ++ file.name ++ "\n\n```csv\n" ++ content ++ "\n```")
          images (ev ++ [.driveDownload file.id])
      | .error _ =>
        processFilesGo env assetsDir fileSlug rest textContent images
          (ev ++ [.driveDownload file.id])
    else if jsStartsWith file.mimeType "image/" then
      -- the source binds `ext := getImageExtensionIfNeeded(...)`,
      -- `imageName := sanitizeFileName(...)` and
      -- `imagePath := path.join(assetsDir, imageName + ext)`; they are
      -- inlined here
      match env.downloadImage file.id with
      | .error _ =>
        processFilesGo env assetsDir fileSlug rest textContent images
          (ev ++ [.driveDownload file.id])
      | .ok imageBuffer =>
        match env.writeFile (assetsDir ++ "/" ++ sanitizeFileName file.name ++
            getImageExtensionIfNeeded file.name file.mimeType) imageBuffer with
        | .error _ =>
          processFilesGo env assetsDir fileSlug rest textContent images
            (ev ++ [.driveDownload file.id])
        | .ok _ =>
          processFilesGo env assetsDir fileSlug rest textContent
            (images ++ [⟨file.name, "/assets/" ++ fileSlug ++ "/" ++ sanitizeFileName file.name ++
              getImageExtensionIfNeeded file.name file.mimeType⟩])
            (ev ++ [.driveDownload file.id,
              .fsWrite (assetsDir ++ "/" ++ sanitizeFileName file.name ++
                getImageExtensionIfNeeded file.name file.mimeType)])
    else
      processFilesGo env assetsDir fileSlug rest textContent images ev

/-- `ContentSynchronizer.processFiles`: assembled raw text, recorded
image references, and the external calls made. -/
def processFiles (env : Env) (files : List DriveFile) (assetsDir fileSlug : String) :
    String × List ImageRef × List Event :=
  processFilesGo env assetsDir fileSlug files "" [] []

/-- Outcome of processing one folder: its external calls, whether
`this.changesDetected = true` ran (line 1538), and what was pushed onto
`this.processedFolders` (line 1539). -/
structure FolderOutcome where
  events : List Event
  wrote : Bool
  names : List String
deriving DecidableEq, Repr

/-- `path.join(repoPath, contentPath, folderFileSlug) + '.md'` (line 1484). -/
def mdFilePathOf (env : Env) (folder : DriveFile) : String :=
  env.repoPath ++ "/" ++ env.contentPath ++ "/" ++ sanitizeFolderName folder.name ++ ".md"

/-- `path.join(repoPath, contentPath, 'assets', folderFileSlug)` (line 1486). -/
def assetsDirOf (env : Env) (folder : DriveFile) : String :=
  env.repoPath ++ "/" ++ env.contentPath ++ "/assets/" ++ sanitizeFolderName folder.name

/-- `path.dirname`. -/
def dirnameJs (p : String) : String :=
  match p.data.reverse.dropWhile (fun c => c ≠ '/') with
  | [] => "."
  | _ :: rest => String.mk rest.reverse

/-- `ContentSynchronizer.processFolder` (lines 1478-1545): staleness
check, listing, directory creation, per-file assembly, transformer call,
stamping and persisting; the folder-level catch (line 1541) turns any
failure into "log and continue with the next folder", leaving the flags
untouched. -/
def processFolder (env : Env) (ctx : List CtxDoc) (folder : DriveFile) : FolderOutcome :=
  let folderFileSlug := sanitizeFolderName folder.name
  let mdFilePath := mdFilePathOf env folder
  let assetsDir := assetsDirOf env folder
  let contentDir := dirnameJs mdFilePath
  let readRes := env.readFile mdFilePath
  let evCheck := if checkListsDrive readRes then [Event.driveListFiles folder.id] else []
  if checkIfUpdateNeeded readRes (env.listFiles folder.id) = false then
    ⟨evCheck, false, []⟩
  else
    match env.listFiles folder.id with
    | .error _ => ⟨evCheck ++ [.driveListFiles folder.id], false, []⟩
    | .ok files =>
      match env.mkdir contentDir with
      | .error _ => ⟨evCheck ++ [.driveListFiles folder.id], false, []⟩
      | .ok _ =>
        match env.mkdir assetsDir with
        | .error _ => ⟨evCheck ++ [.driveListFiles folder.id], false, []⟩
        | .ok _ =>
          let pf := processFiles env files assetsDir folderFileSlug
          let existingContent : Option String :=
            match env.readFile mdFilePath with
            | .ok c => some (trimJs (stripSyncMetadata c))
            | .error _ => none
          let evBase := evCheck ++ [Event.driveListFiles folder.id] ++ pf.2.2 ++ [Event.aiTransform]
          match env.transform pf.1 pf.2.1 existingContent ctx with
          | .error _ => ⟨evBase, false, []⟩
          | .ok transformedContent =>
            let metadata := createMetadataComment files env.now
            let finalContent := transformedContent ++ "\n\n" ++ metadata
            match env.writeFile mdFilePath finalContent with
            | .error _ => ⟨evBase, false, []⟩
            | .ok _ => ⟨evBase ++ [.fsWrite mdFilePath], true, [folder.name]⟩

/-- One iteration of the folder loop: run `processFolder` and merge its
outcome into the accumulated trace and flags. -/
def folderFold (env : Env) (ctx : List CtxDoc) (acc : List Event × Bool × List String)
    (folder : DriveFile) : List Event × Bool × List String :=
  (acc.1 ++ (processFolder env ctx folder).events,
   acc.2.1 || (processFolder env ctx folder).wrote,
   acc.2.2 ++ (processFolder env ctx folder).names)

/-- The `for (const folder of folders)` loop of `sync` (lines 1424-1426),
accumulating the trace and the two instance flags. -/
def foldFolders (env : Env) (ctx : List CtxDoc) (folders : List DriveFile) :
    List Event × Bool × List String :=
  folders.foldl (folderFold env ctx) (([] : List Event), false, ([] : List String))

/-- `ContentSynchronizer.hasExistingChanges` (lines 1362-1388): git
status filtered to paths under `contentPath + '/'`; a status failure is
caught and reported as `false`. -/
def hasExistingChanges (env : Env) : Bool × List Event :=
  match env.gitStatus with
  | .error _ => (false, [.gitStatus])
  | .ok st =>
    let contentChanges := st.files.filter fun f => jsStartsWith f.path (env.contentPath ++ "/")
    (decide (contentChanges.length > 0), [.gitStatus])

/-- Result of one `sync()` run: outcome, trace, and the final values of
`this.changesDetected` and `this.processedFolders`. -/
structure RunResult where
  res : Except String Unit
  trace : List Event
  changesDetected : Bool
  processedFolders : List String
deriving Repr

/-- The sentinel pushed onto `processedFolders` in resume mode
(line 1410). -/
def resumeSentinel : String := "Vorhandene Änderungen"

/-- `ContentSynchronizer.sync` (lines 1393-1454): validate configuration,
check for pre-existing content changes (resume mode), otherwise load
context, enumerate folders and process each, then run the
version-control automation when changes were detected; the outer catch
attempts `returnToBranch(baseBranch)` when the base branch is known and
re-throws. -/
def sync (env : Env) : RunResult :=
  if !env.configOk then
    ⟨.error "Fehlende Umgebungsvariablen", [], false, []⟩
  else
    let hc := hasExistingChanges env
    if hc.1 then
      match createAndSubmitMergeRequest env [resumeSentinel] with
      | (.ok _, ev, _) => ⟨.ok (), hc.2 ++ ev, true, [resumeSentinel]⟩
      | (.error e, ev, some baseBranch) =>
        let r := returnToBranch env baseBranch
        ⟨.error e, hc.2 ++ ev ++ r.2, true, [resumeSentinel]⟩
      | (.error e, ev, none) => ⟨.error e, hc.2 ++ ev, true, [resumeSentinel]⟩
    else
      let ctx := loadContextDocuments env
      match env.listFolders with
      | .error e => ⟨.error e, hc.2 ++ ctx.2 ++ [.driveListFolders], false, []⟩
      | .ok folders =>
        let loop := foldFolders env ctx.1 folders
        let evPre := hc.2 ++ ctx.2 ++ [Event.driveListFolders] ++ loop.1
        if loop.2.1 then
          match createAndSubmitMergeRequest env loop.2.2 with
          | (.ok _, ev, _) => ⟨.ok (), evPre ++ ev, true, loop.2.2⟩
          | (.error e, ev, some baseBranch) =>
            let r := returnToBranch env baseBranch
            ⟨.error e, evPre ++ ev ++ r.2, true, loop.2.2⟩
          | (.error e, ev, none) => ⟨.error e, evPre ++ ev, true, loop.2.2⟩
        else ⟨.ok (), evPre, false, loop.2.2⟩

/-! ## Concrete oracle environments used by witnesses and
counterexamples -/

/-- An environment in which every external call succeeds, no folder
exists remotely, no generated document exists locally, and the working
tree is clean (also after staging: `statusAfterAdd` lists no files). -/
def baseEnv : Env where
  configOk := true
  repoPath := "/repo"
  contentPath := "docs"
  driveFolderId := "root"
  now := ⟨2025, 1, 2, 3, 4, 5, 6⟩
  readFile := fun _ => .error "ENOENT"
  listFiles := fun _ => .ok []
  listFolders := .ok []
  downloadDoc := fun _ => .ok "Dokumenttext"
  downloadSheet := fun _ => .ok "a,b"
  downloadImage := fun _ => .ok "Bytes"
  transform := fun _ _ _ _ => .ok "Markdown"
  mkdir := fun _ => .ok ()
  writeFile := fun _ _ => .ok ()
  gitStatus := .ok ⟨"main", []⟩
  pull := fun _ => .ok ()
  checkoutNew := fun _ => .ok ()
  add := .ok ()
  statusAfterAdd := .ok ⟨"main", []⟩
  commit := .ok ()
  push := fun _ => .ok ()
  createMR := fun _ _ => .ok ()
  checkout := fun _ => .ok ()

/-- C9: `returnToBranch(baseRef)` never re-throws: for every environment
(in particular one whose underlying `git.checkout` fails) and every
branch name, the call returns normally; the failure is only logged. -/
theorem returnToBranch_neverThrows (env : Env) (branchName : String) :
    (returnToBranch env branchName).1 = .ok () := by
  unfold returnToBranch
  cases env.checkout branchName <;> rfl

/-- C2, evaluated at the failing input (a working tree where staging
finds nothing to commit, all other git operations succeeding):
`commitChanges` reports no changes, and instead of short-circuiting to
`returnToBranch(baseRef)` and returning, the automation calls the
non-existent `returnToMain` method and throws a TypeError.  No push, no
merge proposal and no checkout back to the base branch happen inside the
automation. -/
theorem createAndSubmitMergeRequest_noChanges_typeError :
    createAndSubmitMergeRequest baseEnv ["Beispiel"] =
      (.error "TypeError: this.gitService.returnToMain is not a function",
       [.gitStatus, .gitRemoteSetup, .gitPull "main",
        .gitCheckoutNew "contentupdate/2025-01-02T03-04-05Z", .gitAdd, .gitStatus],
       some "main")
    ∧ (∀ b, Event.gitPush b ∉ (createAndSubmitMergeRequest baseEnv ["Beispiel"]).2.1)
    ∧ (∀ s t, Event.forgeCreateMR s t ∉ (createAndSubmitMergeRequest baseEnv ["Beispiel"]).2.1)
    ∧ (∀ b, Event.gitCheckout b ∉ (createAndSubmitMergeRequest baseEnv ["Beispiel"]).2.1) := by
  have h : createAndSubmitMergeRequest baseEnv ["Beispiel"] =
      (.error "TypeError: this.gitService.returnToMain is not a function",
       [.gitStatus, .gitRemoteSetup, .gitPull "main",
        .gitCheckoutNew "contentupdate/2025-01-02T03-04-05Z", .gitAdd, .gitStatus],
       some "main") := by rfl
  refine ⟨h, fun b => ?_, fun s t => ?_, fun b => ?_⟩ <;> rw [h] <;> simp

/-- C10: the staleness check never propagates an error.  Whenever its
body (everything inside the outer `try` of `checkIfUpdateNeeded`, here
`checkIfUpdateNeededE`) throws — in this code, exactly when the Drive
listing inside `getLatestModifiedTime` fails after a watermark was
decoded — the catch-all at line 1584 turns the error into `true`, so the
unit is treated as needing regeneration rather than failing. -/
theorem checkIfUpdateNeeded_catchAll (readRes : Except String String)
    (listRes : Except String (List DriveFile)) (e : String)
    (h : checkIfUpdateNeededE readRes listRes = .error e) :
    checkIfUpdateNeeded readRes listRes = true := by
  unfold checkIfUpdateNeeded
  rw [h]

/-- A document carrying a decodable watermark, used to drive the check
into its Drive-listing step. -/
def docWithWatermark : String :=
  "Inhalt\n\n" ++ createMetadataComment
    [⟨"f1", "Doc", "application/vnd.google-apps.document", "2025-06-01T00:00:00.000Z"⟩]
    ⟨2025, 1, 1, 0, 0, 0, 0⟩

theorem checkIfUpdateNeeded_catchAll_witness :
    checkIfUpdateNeededE (.ok docWithWatermark) (.error "Drive-Ausfall") = .error "Drive-Ausfall"
    ∧ checkIfUpdateNeeded (.ok docWithWatermark) (.error "Drive-Ausfall") = true :=
  ⟨by rfl, checkIfUpdateNeeded_catchAll (.ok docWithWatermark) (.error "Drive-Ausfall")
    "Drive-Ausfall" (by rfl)⟩

/-- A remote item carrying a valid modification timestamp. -/
def someRemoteFile : DriveFile :=
  ⟨"f1", "Doc", "application/vnd.google-apps.document", "2025-06-01T00:00:00.000Z"⟩

/-- Order key of a listed file's `modifiedTime` (0 for an invalid date;
the C1 hypotheses rule invalid dates out). -/
def fileKey (f : DriveFile) : Nat :=
  match parseJsDate f.modifiedTime with
  | some r => dateKey r
  | none => 0

/-- `max(item.remoteModifiedAt)` over a listing, in the `dateKey`
encoding of chronological order. -/
def maxKeyOf (files : List DriveFile) : Nat :=
  files.foldl (fun n g => Nat.max n (fileKey g)) 0

theorem fileKey_pickLatest {f x : DriveFile}
    (hf : (parseJsDate f.modifiedTime).isSome = true)
    (hx : (parseJsDate x.modifiedTime).isSome = true) :
    fileKey (pickLatest f x) = Nat.max (fileKey f) (fileKey x)
    ∧ (parseJsDate (pickLatest f x).modifiedTime).isSome = true := by
  obtain ⟨rf, hrf⟩ := Option.isSome_iff_exists.mp hf
  obtain ⟨rx, hrx⟩ := Option.isSome_iff_exists.mp hx
  have hkf : fileKey f = dateKey rf := by simp [fileKey, hrf]
  have hkx : fileKey x = dateKey rx := by simp [fileKey, hrx]
  by_cases hgt : dateKey rf < dateKey rx
  · have hpick : pickLatest f x = x := by
      unfold pickLatest jsDateGt
      rw [hrf, hrx]
      simp [hgt]
    rw [hpick, hkf, hkx]
    exact ⟨(Nat.max_eq_right (Nat.le_of_lt hgt)).symm, hx⟩
  · have hpick : pickLatest f x = f := by
      unfold pickLatest jsDateGt
      rw [hrf, hrx]
      simp [hgt]
    rw [hpick, hkf, hkx]
    exact ⟨(Nat.max_eq_left (Nat.le_of_not_lt hgt)).symm, hf⟩

theorem foldl_pickLatest_key (files : List DriveFile) :
    ∀ f : DriveFile, (parseJsDate f.modifiedTime).isSome = true →
    (∀ g ∈ files, (parseJsDate g.modifiedTime).isSome = true) →
    fileKey (files.foldl pickLatest f)
        = files.foldl (fun n g => Nat.max n (fileKey g)) (fileKey f)
      ∧ (parseJsDate ((files.foldl pickLatest f).modifiedTime)).isSome = true := by
  induction files with
  | nil => exact fun f hf _ => ⟨rfl, hf⟩
  | cons x xs ih =>
    intro f hf hv
    have hx : (parseJsDate x.modifiedTime).isSome = true := hv x (by simp)
    have hxs : ∀ g ∈ xs, (parseJsDate g.modifiedTime).isSome = true :=
      fun g hg => hv g (by simp [hg])
    obtain ⟨hkey, hsome⟩ := fileKey_pickLatest hf hx
    obtain ⟨ih1, ih2⟩ := ih (pickLatest f x) hsome hxs
    refine ⟨?_, by simpa using ih2⟩
    simp only [List.foldl_cons, ih1, hkey]

/-- C1: for a unit whose generated document exists (`.ok content`) and
carries a decodable watermark with a `lastSync` timestamp, and whose item
listing succeeds with parseable modification times, the check returns
true iff the maximum remote modification time is strictly later than
`lastSync` (in the `dateKey` rendering of chronological order,
`maxKeyOf`); a unit with zero items yields false, and an exactly-equal
maximum also yields false — equal timestamps count as already synced. -/
theorem checkIfUpdateNeeded_staleness (content : String) (m : SyncMetadata) (rec : DateRec)
    (files : List DriveFile)
    (hm : extractMetadata content = some m)
    (hts : m.lastSync = some rec)
    (hv : ∀ g ∈ files, (parseJsDate g.modifiedTime).isSome = true) :
    (checkIfUpdateNeeded (.ok content) (.ok files) = true ↔
      files ≠ [] ∧ dateKey rec < maxKeyOf files)
    ∧ (files = [] → checkIfUpdateNeeded (.ok content) (.ok files) = false)
    ∧ (files ≠ [] → maxKeyOf files = dateKey rec →
        checkIfUpdateNeeded (.ok content) (.ok files) = false) := by
  cases files with
  | nil =>
    refine ⟨?_, fun _ => ?_, fun h _ => absurd rfl h⟩
    · simp only [checkIfUpdateNeeded, checkIfUpdateNeededE, hm, jsDateFalsy, Bool.false_eq_true,
        if_false, getLatestModifiedTime]
      simp
    · simp only [checkIfUpdateNeeded, checkIfUpdateNeededE, hm, jsDateFalsy, Bool.false_eq_true,
        if_false, getLatestModifiedTime]
  | cons f fs =>
    have hf : (parseJsDate f.modifiedTime).isSome = true := hv f (by simp)
    obtain ⟨hkey, hsome⟩ := foldl_pickLatest_key (f :: fs) f hf hv
    obtain ⟨rmax, hrmax⟩ := Option.isSome_iff_exists.mp hsome
    have hglm : getLatestModifiedTime (f :: fs) = some (some rmax) := by
      show some (parseJsDate ((f :: fs).foldl pickLatest f).modifiedTime) = some (some rmax)
      rw [hrmax]
    have hmk : maxKeyOf (f :: fs) = dateKey rmax := by
      have h1 : fileKey ((f :: fs).foldl pickLatest f) = dateKey rmax := by
        unfold fileKey
        rw [hrmax]
      rw [hkey] at h1
      have h0 : Nat.max 0 (fileKey f) = fileKey f := Nat.zero_max (fileKey f)
      have hself : Nat.max (fileKey f) (fileKey f) = fileKey f := Nat.max_self (fileKey f)
      rw [maxKeyOf, List.foldl_cons, h0]
      rw [List.foldl_cons, hself] at h1
      exact h1
    have hcheck : checkIfUpdateNeeded (.ok content) (.ok (f :: fs))
        = jsDateGt (some rmax) (some rec) := by
      simp only [checkIfUpdateNeeded, checkIfUpdateNeededE, hm, jsDateFalsy, Bool.false_eq_true,
        if_false, hglm, hts]
    refine ⟨?_, fun h => absurd h (by simp), fun _ heq => ?_⟩
    · rw [hcheck, hmk]
      simp only [jsDateGt, decide_eq_true_eq, gt_iff_lt]
      simp
    · rw [hcheck]
      rw [hmk] at heq
      simp only [jsDateGt, heq]
      simp

/-- A generated document stamped at 2025-01-01T00:00:00.000Z. -/
def c1Content : String :=
  "Inhalt\n\n" ++ createMetadataComment [someRemoteFile] ⟨2025, 1, 1, 0, 0, 0, 0⟩

/-- Two remote items whose later modification time equals the watermark
exactly. -/
def c1Files : List DriveFile :=
  [⟨"a", "A", "application/vnd.google-apps.document", "2024-12-31T23:59:59.000Z"⟩,
   ⟨"b", "B", "application/vnd.google-apps.document", "2025-01-01T00:00:00.000Z"⟩]

theorem checkIfUpdateNeeded_staleness_witness :
    (checkIfUpdateNeeded (.ok c1Content) (.ok c1Files) = true ↔
      c1Files ≠ [] ∧ dateKey ⟨2025, 1, 1, 0, 0, 0, 0⟩ < maxKeyOf c1Files)
    ∧ (c1Files = [] → checkIfUpdateNeeded (.ok c1Content) (.ok c1Files) = false)
    ∧ (c1Files ≠ [] → maxKeyOf c1Files = dateKey ⟨2025, 1, 1, 0, 0, 0, 0⟩ →
        checkIfUpdateNeeded (.ok c1Content) (.ok c1Files) = false) :=
  checkIfUpdateNeeded_staleness c1Content ⟨some ⟨2025, 1, 1, 0, 0, 0, 0⟩, "Doc (f1)"⟩
    ⟨2025, 1, 1, 0, 0, 0, 0⟩ c1Files (by rfl) rfl (by decide)

/-! ## C8: image filenames and recorded reference paths -/

theorem getImageExtension_ne_empty (mimeType : String) : getImageExtension mimeType ≠ "" := by
  unfold getImageExtension
  repeat' split
  all_goals decide

theorem data_append (a b : String) : (a ++ b).data = a.data ++ b.data := by
  cases a
  cases b
  rfl

theorem startsWithL_iff (lit : List Char) :
    ∀ s, startsWithL lit s = true ↔ ∃ r, s = lit ++ r := by
  induction lit with
  | nil => intro s; simp [startsWithL]
  | cons l ls ih =>
    intro s
    cases s with
    | nil => simp [startsWithL]
    | cons c cs =>
      rw [startsWithL]
      simp only [Bool.and_eq_true, decide_eq_true_eq, ih cs]
      constructor
      · rintro ⟨rfl, r, rfl⟩
        exact ⟨r, rfl⟩
      · rintro ⟨r, hr⟩
        injection hr with h1 h2
        exact ⟨h1.symm, r, h2⟩

theorem startsWithL_refl_append (lit r : List Char) : startsWithL lit (lit ++ r) = true :=
  (startsWithL_iff lit (lit ++ r)).mpr ⟨r, rfl⟩

theorem processFilesGo_images_mem (env : Env) (assetsDir fileSlug : String)
    (files : List DriveFile) :
    ∀ (text : String) (images0 : List ImageRef) (ev0 : List Event) (entry : ImageRef),
      entry ∈ (processFilesGo env assetsDir fileSlug files text images0 ev0).2.1 →
      entry ∈ images0 ∨ ∃ f ∈ files, jsStartsWith f.mimeType "image/" = true ∧
        entry = ⟨f.name, "/assets/" ++ fileSlug ++ "/" ++ sanitizeFileName f.name ++
          getImageExtensionIfNeeded f.name f.mimeType⟩ := by
  induction files with
  | nil => intro text images0 ev0 entry h; exact Or.inl h
  | cons file rest ih =>
    intro text images0 ev0 entry h
    have step : ∀ t i e, entry ∈ (processFilesGo env assetsDir fileSlug rest t i e).2.1 →
        entry ∈ i ∨ ∃ f ∈ file :: rest, jsStartsWith f.mimeType "image/" = true ∧
          entry = ⟨f.name, "/assets/" ++ fileSlug ++ "/" ++ sanitizeFileName f.name ++
            getImageExtensionIfNeeded f.name f.mimeType⟩ := by
      intro t i e hmem
      rcases ih t i e entry hmem with hl | ⟨f, hf, himg, hentry⟩
      · exact Or.inl hl
      · exact Or.inr ⟨f, by simp [hf], himg, hentry⟩
    rw [processFilesGo] at h
    split at h
    · split at h <;> exact step _ _ _ h
    · split at h
      · split at h <;> exact step _ _ _ h
      · split at h
        · rename_i himg
          split at h
          · exact step _ _ _ h
          · split at h
            · exact step _ _ _ h
            · rcases step _ _ _ h with hl | hr
              · rcases List.mem_append.mp hl with hi | hnew
                · exact Or.inl hi
                · refine Or.inr ⟨file, by simp, himg, ?_⟩
                  simpa using hnew
              · exact Or.inr hr
        · exact step _ _ _ h

/-- C8: an extension is appended exactly when needed — the appended
extension is empty iff the original name already ends (case-insensitively)
in one of the recognized image extensions, and otherwise it is the one
derived from the media type (never empty, so the emptiness
characterization is exact); and every image reference recorded by
`processFiles` uses the sanitized original name with that conditional
extension and a site-relative path (its first character is a slash). -/
theorem imageExtension_and_path :
    (∀ name mimeType, getImageExtensionIfNeeded name mimeType = "" ↔
      ∃ ext ∈ imageExtensions, jsEndsWith (toLowerJs name) ext = true)
    ∧ (∀ name mimeType, (¬ ∃ ext ∈ imageExtensions, jsEndsWith (toLowerJs name) ext = true) →
      getImageExtensionIfNeeded name mimeType = getImageExtension mimeType)
    ∧ (∀ env files assetsDir fileSlug entry,
      entry ∈ (processFiles env files assetsDir fileSlug).2.1 →
      ∃ f ∈ files, jsStartsWith f.mimeType "image/" = true ∧
        entry = ⟨f.name, "/assets/" ++ fileSlug ++ "/" ++ sanitizeFileName f.name ++
          getImageExtensionIfNeeded f.name f.mimeType⟩ ∧
        entry.path.data.head? = some '/') := by
  have hext : ∀ name mimeType, getImageExtensionIfNeeded name mimeType = "" ↔
      ∃ ext ∈ imageExtensions, jsEndsWith (toLowerJs name) ext = true := by
    intro name mimeType
    unfold getImageExtensionIfNeeded
    split
    · rename_i hany
      simp only [List.any_eq_true] at hany
      exact iff_of_true rfl hany
    · rename_i hany
      simp only [List.any_eq_true] at hany
      exact iff_of_false (getImageExtension_ne_empty mimeType) hany
  refine ⟨hext, fun name mimeType hnone => ?_, fun env files assetsDir fileSlug entry h => ?_⟩
  · unfold getImageExtensionIfNeeded
    split
    · rename_i hany
      simp only [List.any_eq_true] at hany
      exact absurd hany hnone
    · rfl
  · rcases processFilesGo_images_mem env assetsDir fileSlug files "" [] [] entry h with
      hl | ⟨f, hf, himg, hentry⟩
    · simp at hl
    · refine ⟨f, hf, himg, hentry, ?_⟩
      rw [hentry]
      show ("/assets/" ++ fileSlug ++ "/" ++ sanitizeFileName f.name ++
        getImageExtensionIfNeeded f.name f.mimeType).data.head? = some '/'
      rw [data_append, data_append, data_append, data_append]
      rfl

/-- One remote image whose name already carries an extension (in varying
case), one whose name does not. -/
def c8Env : Env := baseEnv

theorem imageExtension_and_path_witness :
    (getImageExtensionIfNeeded "Foto.JPG" "image/png" = "" ↔
      ∃ ext ∈ imageExtensions, jsEndsWith (toLowerJs "Foto.JPG") ext = true)
    ∧ (∃ f ∈ [(⟨"img1", "Foto.JPG", "image/png", "t"⟩ : DriveFile)],
        jsStartsWith f.mimeType "image/" = true ∧
        (⟨"Foto.JPG", "/assets/ordner/Foto.JPG"⟩ : ImageRef)
          = ⟨f.name, "/assets/" ++ "ordner" ++ "/" ++ sanitizeFileName f.name ++
              getImageExtensionIfNeeded f.name f.mimeType⟩ ∧
        ("/assets/ordner/Foto.JPG" : String).data.head? = some '/') :=
  ⟨imageExtension_and_path.1 "Foto.JPG" "image/png",
   imageExtension_and_path.2.2 c8Env [⟨"img1", "Foto.JPG", "image/png", "t"⟩]
     "/repo/docs/assets/ordner" "ordner" ⟨"Foto.JPG", "/assets/ordner/Foto.JPG"⟩ (by decide)⟩

/-! ## Event classification, used by the orchestration claims -/

/-- Content-source (Drive) and transformer calls. -/
def isContentSourceOrTransformEvent : Event → Bool
  | .driveListFolders => true
  | .driveListFiles _ => true
  | .driveDownload _ => true
  | .aiTransform => true
  | _ => false

/-- Events of the version-control automation (git and the forge). -/
def isVcEvent : Event → Bool
  | .gitStatus => true
  | .gitRemoteSetup => true
  | .gitPull _ => true
  | .gitCheckoutNew _ => true
  | .gitAdd => true
  | .gitCommit => true
  | .gitPush _ => true
  | .forgeCreateMR _ _ => true
  | .gitCheckout _ => true
  | _ => false

/-- Version-control events that mutate state (everything git/forge except
the read-only `status`). -/
def isVcMutationEvent : Event → Bool
  | .gitRemoteSetup => true
  | .gitPull _ => true
  | .gitCheckoutNew _ => true
  | .gitAdd => true
  | .gitCommit => true
  | .gitPush _ => true
  | .forgeCreateMR _ _ => true
  | .gitCheckout _ => true
  | _ => false

/-- Per-unit pipeline events (Drive, transformer, filesystem writes). -/
def isPipelineEvent : Event → Bool
  | .driveListFolders => true
  | .driveListFiles _ => true
  | .driveDownload _ => true
  | .aiTransform => true
  | .fsWrite _ => true
  | _ => false

/-- Successful document/asset writes. -/
def isFsWriteEvent : Event → Bool
  | .fsWrite _ => true
  | _ => false

theorem vc_not_contentSource {ev : Event} (h : isVcEvent ev = true) :
    isContentSourceOrTransformEvent ev = false := by
  cases ev <;> simp_all [isVcEvent, isContentSourceOrTransformEvent]

theorem vc_not_fsWrite {ev : Event} (h : isVcEvent ev = true) :
    isFsWriteEvent ev = false := by
  cases ev <;> simp_all [isVcEvent, isFsWriteEvent]

theorem pipeline_not_vcMutation {ev : Event} (h : isPipelineEvent ev = true) :
    isVcMutationEvent ev = false := by
  cases ev <;> simp_all [isPipelineEvent, isVcMutationEvent]

theorem createBranch_events_vc (env : Env) (b : String) :
    ((createBranch env b).2).all isVcEvent = true := by
  unfold createBranch
  split
  · rfl
  · split
    · rfl
    · split <;> rfl

theorem commitChanges_events_vc (env : Env) :
    ((commitChanges env).2).all isVcEvent = true := by
  unfold commitChanges
  split
  · rfl
  · split
    · rfl
    · split
      · rfl
      · split <;> rfl

theorem returnToBranch_events_vc (env : Env) (b : String) :
    ((returnToBranch env b).2).all isVcEvent = true := by
  unfold returnToBranch
  split <;> rfl

theorem createAndSubmitMR_events_vc (env : Env) (pf : List String) :
    ((createAndSubmitMergeRequest env pf).2.1).all isVcEvent = true := by
  rcases hcb : createBranch env (branchNameOf env.now) with ⟨rb, evb⟩
  have h1 := createBranch_events_vc env (branchNameOf env.now)
  rw [hcb] at h1
  simp only at h1
  rcases hcc : commitChanges env with ⟨rc, evc⟩
  have h2 := commitChanges_events_vc env
  rw [hcc] at h2
  simp only at h2
  unfold createAndSubmitMergeRequest
  simp only [hcb, hcc, pushBranch, createMergeRequest, returnToBranch]
  cases rb with
  | error e => simpa using h1
  | ok base =>
    cases rc with
    | error e => simp [List.all_append, h1, h2]
    | ok hasChanges =>
      cases hasChanges with
      | false => simp [List.all_append, h1, h2]
      | true =>
        cases hp : env.push (branchNameOf env.now) with
        | error e => simp [hp, List.all_append, h1, h2, isVcEvent]
        | ok u =>
          cases hm : env.createMR (branchNameOf env.now) base with
          | error e => simp [hp, hm, List.all_append, h1, h2, isVcEvent]
          | ok u2 =>
            cases hco : env.checkout base with
            | error e => simp [hp, hm, hco, List.all_append, h1, h2, isVcEvent]
            | ok u3 => simp [hp, hm, hco, List.all_append, h1, h2, isVcEvent]

theorem processFilesGo_events_pipeline (env : Env) (assetsDir fileSlug : String)
    (files : List DriveFile) :
    ∀ (text : String) (images : List ImageRef) (ev0 : List Event),
      ev0.all isPipelineEvent = true →
      ((processFilesGo env assetsDir fileSlug files text images ev0).2.2).all isPipelineEvent
        = true := by
  induction files with
  | nil => intro text images ev0 h; simpa [processFilesGo] using h
  | cons file rest ih =>
    intro text images ev0 h
    rw [processFilesGo]
    split
    · rcases hd : env.downloadDoc file.id with e | c <;> simp only [hd] <;>
        exact ih _ _ _ (by simp [List.all_append, h, isPipelineEvent])
    · split
      · rcases hd : env.downloadSheet file.id with e | c <;> simp only [hd] <;>
          exact ih _ _ _ (by simp [List.all_append, h, isPipelineEvent])
      · split
        · rcases hd : env.downloadImage file.id with e | c
          · simp only [hd]
            exact ih _ _ _ (by simp [List.all_append, h, isPipelineEvent])
          · simp only [hd]
            rcases hw : env.writeFile (assetsDir ++ "/" ++ sanitizeFileName file.name ++
                getImageExtensionIfNeeded file.name file.mimeType) c with e | u <;>
              simp only [hw] <;>
              exact ih _ _ _ (by simp [List.all_append, h, isPipelineEvent])
        · exact ih _ _ _ h

theorem processFolder_events_pipeline (env : Env) (ctx : List CtxDoc) (folder : DriveFile) :
    ((processFolder env ctx folder).events).all isPipelineEvent = true := by
  have hpf : ∀ (files : List DriveFile) (assets slug : String),
      ((processFiles env files assets slug).2.2).all isPipelineEvent = true :=
    fun files assets slug => processFilesGo_events_pipeline env assets slug files "" [] [] rfl
  simp only [processFolder]
  repeat' split
  all_goals simp [List.all_append, isPipelineEvent, hpf]

theorem loadCtxFile_events (env : Env) (f : DriveFile) :
    (loadCtxFile env f).2 = [.driveDownload f.id] := by
  unfold loadCtxFile
  repeat' split
  all_goals rfl

theorem ctxFold_events_pipeline (env : Env) (files : List DriveFile) :
    ∀ (acc : List CtxDoc × List Event), acc.2.all isPipelineEvent = true →
      ((files.foldl (ctxFold env) acc).2).all isPipelineEvent = true := by
  induction files with
  | nil => intro acc h; simpa using h
  | cons f rest ih =>
    intro acc h
    rw [List.foldl_cons]
    exact ih _ (by simp [ctxFold, loadCtxFile_events, List.all_append, h, isPipelineEvent])

theorem loadContextDocuments_events_pipeline (env : Env) :
    ((loadContextDocuments env).2).all isPipelineEvent = true := by
  unfold loadContextDocuments
  split
  · simp [isPipelineEvent]
  · simp only [List.all_cons, Bool.and_eq_true]
    exact ⟨rfl, ctxFold_events_pipeline env _ ([], []) rfl⟩

theorem foldFolders_shift (env : Env) (ctx : List CtxDoc) (folders : List DriveFile) :
    ∀ (ev : List Event) (cd : Bool) (pf : List String),
      folders.foldl (folderFold env ctx) (ev, cd, pf)
      = (ev ++ (foldFolders env ctx folders).1,
         cd || (foldFolders env ctx folders).2.1,
         pf ++ (foldFolders env ctx folders).2.2) := by
  induction folders with
  | nil => intro ev cd pf; simp [foldFolders]
  | cons x rest ih =>
    intro ev cd pf
    rw [List.foldl_cons]
    rw [show folderFold env ctx (ev, cd, pf) x
      = (ev ++ (processFolder env ctx x).events, cd || (processFolder env ctx x).wrote,
         pf ++ (processFolder env ctx x).names) from rfl]
    rw [ih]
    have hr : foldFolders env ctx (x :: rest)
        = ((processFolder env ctx x).events ++ (foldFolders env ctx rest).1,
           (processFolder env ctx x).wrote || (foldFolders env ctx rest).2.1,
           (processFolder env ctx x).names ++ (foldFolders env ctx rest).2.2) := by
      show List.foldl (folderFold env ctx) (folderFold env ctx ([], false, []) x) rest = _
      rw [show folderFold env ctx ([], false, []) x
        = ((processFolder env ctx x).events, (processFolder env ctx x).wrote,
           (processFolder env ctx x).names) from by simp [folderFold]]
      rw [ih]
    rw [hr]
    simp [List.append_assoc, Bool.or_assoc]

theorem foldFolders_events_pipeline (env : Env) (ctx : List CtxDoc) (folders : List DriveFile) :
    ((foldFolders env ctx folders).1).all isPipelineEvent = true := by
  induction folders with
  | nil => rfl
  | cons x rest ih =>
    have hr := foldFolders_shift env ctx rest
    show (List.foldl (folderFold env ctx) (folderFold env ctx ([], false, []) x) rest).1.all
      isPipelineEvent = true
    rw [show folderFold env ctx ([], false, []) x
      = ((processFolder env ctx x).events, (processFolder env ctx x).wrote,
         (processFolder env ctx x).names) from by simp [folderFold]]
    rw [hr]
    simp [List.all_append, processFolder_events_pipeline, ih]

theorem all_vc_imp_not_cs {l : List Event} (h : l.all isVcEvent = true) :
    l.all (fun ev => !isContentSourceOrTransformEvent ev) = true := by
  rw [List.all_eq_true] at h ⊢
  intro x hx
  simp [vc_not_contentSource (h x hx)]

theorem vc_filter_fsWrite {l : List Event} (h : l.all isVcEvent = true) :
    l.filter isFsWriteEvent = [] := by
  rw [List.all_eq_true] at h
  apply List.filter_eq_nil_iff.mpr
  intro a ha
  simp [vc_not_fsWrite (h a ha)]

theorem all_pipeline_imp_not_vcMutation {l : List Event}
    (h : l.all isPipelineEvent = true) :
    l.all (fun ev => !isVcMutationEvent ev) = true := by
  rw [List.all_eq_true] at h ⊢
  intro x hx
  simp [pipeline_not_vcMutation (h x hx)]

theorem hasExistingChanges_clean (env : Env) (gs : GitStatus)
    (hst : env.gitStatus = .ok gs)
    (hclean : ∀ f ∈ gs.files, jsStartsWith f.path (env.contentPath ++ "/") = false) :
    hasExistingChanges env = (false, [.gitStatus]) := by
  unfold hasExistingChanges
  rw [hst]
  have hf : gs.files.filter (fun f => jsStartsWith f.path (env.contentPath ++ "/")) = [] := by
    apply List.filter_eq_nil_iff.mpr
    intro a ha
    simp [hclean a ha]
  simp [hf]

theorem hasExistingChanges_dirty (env : Env) (gs : GitStatus) (f : StatusFile)
    (hst : env.gitStatus = .ok gs) (hf : f ∈ gs.files)
    (hp : jsStartsWith f.path (env.contentPath ++ "/") = true) :
    hasExistingChanges env = (true, [.gitStatus]) := by
  unfold hasExistingChanges
  rw [hst]
  have hmem : f ∈ gs.files.filter (fun g => jsStartsWith g.path (env.contentPath ++ "/")) :=
    List.mem_filter.mpr ⟨hf, hp⟩
  have hlen : 0 < (gs.files.filter (fun g => jsStartsWith g.path (env.contentPath ++ "/"))).length :=
    List.length_pos.mpr (List.ne_nil_of_mem hmem)
  simp [hlen]

theorem sync_resumeEq (env : Env) (gs : GitStatus) (f : StatusFile)
    (hcfg : env.configOk = true) (hst : env.gitStatus = .ok gs) (hf : f ∈ gs.files)
    (hp : jsStartsWith f.path (env.contentPath ++ "/") = true) :
    sync env =
      match createAndSubmitMergeRequest env [resumeSentinel] with
      | (.ok _, ev, _) => ⟨.ok (), [Event.gitStatus] ++ ev, true, [resumeSentinel]⟩
      | (.error e, ev, some baseBranch) =>
        ⟨.error e, [Event.gitStatus] ++ ev ++ (returnToBranch env baseBranch).2, true,
          [resumeSentinel]⟩
      | (.error e, ev, none) => ⟨.error e, [Event.gitStatus] ++ ev, true, [resumeSentinel]⟩ := by
  have h1 := hasExistingChanges_dirty env gs f hst hf hp
  simp only [sync, hcfg, h1, Bool.not_true, Bool.false_eq_true, if_false, if_true]

theorem createAndSubmitMR_pull_mem (env : Env) (pf : List String) (gs : GitStatus)
    (hst : env.gitStatus = .ok gs) :
    Event.gitPull gs.current ∈ (createAndSubmitMergeRequest env pf).2.1 := by
  unfold createAndSubmitMergeRequest createBranch
  simp only [hst]
  cases hp : env.pull gs.current with
  | error e => simp [hp]
  | ok u =>
    cases hcn : env.checkoutNew (branchNameOf env.now) with
    | error e => simp [hp, hcn]
    | ok u2 =>
      simp only [hp, hcn]
      repeat' split
      all_goals simp

/-- C3: when the working tree already has uncommitted changes under the
generated-content path at the start of a run, `sync` enters resume mode:
the trace contains no content-source listing/download call and no
transformer call, the change set is marked non-empty with the sentinel
label, and the run proceeds directly to the version-control automation
(the `pull` of branch creation, the first external version-control
operation after the status read, is attempted). -/
theorem sync_resumeMode_shortCircuit (env : Env) (gs : GitStatus) (f : StatusFile)
    (hcfg : env.configOk = true) (hst : env.gitStatus = .ok gs) (hf : f ∈ gs.files)
    (hp : jsStartsWith f.path (env.contentPath ++ "/") = true) :
    ((sync env).trace).all (fun ev => !isContentSourceOrTransformEvent ev) = true
    ∧ (sync env).changesDetected = true
    ∧ (sync env).processedFolders = [resumeSentinel]
    ∧ Event.gitPull gs.current ∈ (sync env).trace := by
  rw [sync_resumeEq env gs f hcfg hst hf hp]
  rcases hmr : createAndSubmitMergeRequest env [resumeSentinel] with ⟨res, ev, bb⟩
  have hev := createAndSubmitMR_events_vc env [resumeSentinel]
  rw [hmr] at hev
  simp only at hev
  have hpull : Event.gitPull gs.current ∈ ev := by
    have hm := createAndSubmitMR_pull_mem env [resumeSentinel] gs hst
    rw [hmr] at hm
    simpa using hm
  cases res with
  | ok u =>
    refine ⟨?_, rfl, rfl, by simp [hpull]⟩
    have h1 := all_vc_imp_not_cs hev
    simp only [List.all_append, h1, Bool.and_true]
    rfl
  | error e =>
    cases bb with
    | some b =>
      have hrb := returnToBranch_events_vc env b
      refine ⟨?_, rfl, rfl, by simp [hpull]⟩
      have h1 := all_vc_imp_not_cs hev
      have h2 := all_vc_imp_not_cs hrb
      simp only [List.all_append, h1, h2, Bool.and_true]
      rfl
    | none =>
      refine ⟨?_, rfl, rfl, by simp [hpull]⟩
      have h1 := all_vc_imp_not_cs hev
      simp only [List.all_append, h1, Bool.and_true]
      rfl

/-- An environment whose working tree already holds an uncommitted change
under `docs/`. -/
def resumeEnv : Env :=
  { baseEnv with
    gitStatus := .ok ⟨"main", [⟨"docs/seite.md"⟩]⟩,
    statusAfterAdd := .ok ⟨"main", [⟨"docs/seite.md"⟩]⟩ }

theorem sync_resumeMode_shortCircuit_witness :
    ((sync resumeEnv).trace).all (fun ev => !isContentSourceOrTransformEvent ev) = true
    ∧ (sync resumeEnv).changesDetected = true
    ∧ (sync resumeEnv).processedFolders = [resumeSentinel]
    ∧ Event.gitPull "main" ∈ (sync resumeEnv).trace :=
  sync_resumeMode_shortCircuit resumeEnv ⟨"main", [⟨"docs/seite.md"⟩]⟩ ⟨"docs/seite.md"⟩
    rfl rfl (by decide) (by decide)

theorem sync_normalEq (env : Env) (gs : GitStatus) (folders : List DriveFile)
    (hcfg : env.configOk = true) (hst : env.gitStatus = .ok gs)
    (hclean : ∀ f ∈ gs.files, jsStartsWith f.path (env.contentPath ++ "/") = false)
    (hlf : env.listFolders = .ok folders) :
    sync env =
      (if (foldFolders env (loadContextDocuments env).1 folders).2.1 then
        match createAndSubmitMergeRequest env
            (foldFolders env (loadContextDocuments env).1 folders).2.2 with
        | (.ok _, ev, _) =>
          ⟨.ok (), [Event.gitStatus] ++ (loadContextDocuments env).2 ++ [Event.driveListFolders]
            ++ (foldFolders env (loadContextDocuments env).1 folders).1 ++ ev, true,
            (foldFolders env (loadContextDocuments env).1 folders).2.2⟩
        | (.error e, ev, some baseBranch) =>
          ⟨.error e, [Event.gitStatus] ++ (loadContextDocuments env).2 ++ [Event.driveListFolders]
            ++ (foldFolders env (loadContextDocuments env).1 folders).1 ++ ev
            ++ (returnToBranch env baseBranch).2, true,
            (foldFolders env (loadContextDocuments env).1 folders).2.2⟩
        | (.error e, ev, none) =>
          ⟨.error e, [Event.gitStatus] ++ (loadContextDocuments env).2 ++ [Event.driveListFolders]
            ++ (foldFolders env (loadContextDocuments env).1 folders).1 ++ ev, true,
            (foldFolders env (loadContextDocuments env).1 folders).2.2⟩
      else
        ⟨.ok (), [Event.gitStatus] ++ (loadContextDocuments env).2 ++ [Event.driveListFolders]
          ++ (foldFolders env (loadContextDocuments env).1 folders).1, false,
          (foldFolders env (loadContextDocuments env).1 folders).2.2⟩) := by
  have h1 := hasExistingChanges_clean env gs hst hclean
  simp only [sync, hcfg, h1, hlf, Bool.not_true, Bool.false_eq_true, if_false, if_true]

/-- C5: a run in normal mode (valid configuration, clean working tree
under the content path, successful folder listing) that ends with an
empty change set terminates successfully and performs no
version-control side effect: its trace contains no remote
synchronization, branch creation, staging, commit, push, merge-proposal
or checkout event (the lone `gitStatus` entry is the read-only dirtiness
probe). -/
theorem sync_emptyChangeSet_noSideEffects (env : Env) (gs : GitStatus)
    (folders : List DriveFile)
    (hcfg : env.configOk = true) (hst : env.gitStatus = .ok gs)
    (hclean : ∀ f ∈ gs.files, jsStartsWith f.path (env.contentPath ++ "/") = false)
    (hlf : env.listFolders = .ok folders)
    (hnc : (sync env).changesDetected = false) :
    (sync env).res = .ok ()
    ∧ ((sync env).trace).all (fun ev => !isVcMutationEvent ev) = true := by
  have hs := sync_normalEq env gs folders hcfg hst hclean hlf
  cases hloop : (foldFolders env (loadContextDocuments env).1 folders).2.1 with
  | true =>
    exfalso
    rw [hs] at hnc
    simp only [hloop, if_true] at hnc
    split at hnc <;> simp at hnc
  | false =>
    rw [hs]
    simp only [hloop, Bool.false_eq_true, if_false]
    refine ⟨by trivial, ?_⟩
    have h1 := all_pipeline_imp_not_vcMutation (loadContextDocuments_events_pipeline env)
    have h2 := all_pipeline_imp_not_vcMutation
      (foldFolders_events_pipeline env (loadContextDocuments env).1 folders)
    simp only [List.all_append, h1, h2, Bool.and_true]
    rfl

theorem sync_emptyChangeSet_noSideEffects_witness :
    (sync baseEnv).res = .ok ()
    ∧ ((sync baseEnv).trace).all (fun ev => !isVcMutationEvent ev) = true :=
  sync_emptyChangeSet_noSideEffects baseEnv ⟨"main", []⟩ [] rfl rfl (by decide) rfl (by rfl)

theorem checkIfUpdateNeeded_listError (readRes : Except String String) (e : String) :
    checkIfUpdateNeeded readRes (.error e) = true := by
  unfold checkIfUpdateNeeded checkIfUpdateNeededE
  rcases readRes with e2 | content
  · rfl
  · cases hx : extractMetadata content with
    | none => simp [hx]
    | some m => simp [hx, jsDateFalsy]

theorem processFolder_listFail (env : Env) (ctx : List CtxDoc) (fb : DriveFile) (e : String)
    (hfail : env.listFiles fb.id = .error e) :
    (processFolder env ctx fb).wrote = false ∧ (processFolder env ctx fb).names = []
    ∧ ((processFolder env ctx fb).events).filter isFsWriteEvent = [] := by
  have hck := checkIfUpdateNeeded_listError (env.readFile (mdFilePathOf env fb)) e
  unfold processFolder
  simp only [hfail, hck]
  refine ⟨by simp, by simp, ?_⟩
  cases hc : checkListsDrive (env.readFile (mdFilePathOf env fb)) <;>
    simp [hc, isFsWriteEvent]

theorem foldFolders_append (env : Env) (ctx : List CtxDoc) (l1 l2 : List DriveFile) :
    foldFolders env ctx (l1 ++ l2)
    = ((foldFolders env ctx l1).1 ++ (foldFolders env ctx l2).1,
       (foldFolders env ctx l1).2.1 || (foldFolders env ctx l2).2.1,
       (foldFolders env ctx l1).2.2 ++ (foldFolders env ctx l2).2.2) := by
  have h1 : foldFolders env ctx (l1 ++ l2)
      = List.foldl (folderFold env ctx) (foldFolders env ctx l1) l2 := by
    show List.foldl (folderFold env ctx) ([], false, []) (l1 ++ l2) = _
    rw [List.foldl_append]
    rfl
  rw [h1]
  rcases hA : foldFolders env ctx l1 with ⟨ev, cd, pf⟩
  rw [foldFolders_shift env ctx l2 ev cd pf]

theorem foldFolders_cons (env : Env) (ctx : List CtxDoc) (x : DriveFile) (l : List DriveFile) :
    foldFolders env ctx (x :: l)
    = ((processFolder env ctx x).events ++ (foldFolders env ctx l).1,
       (processFolder env ctx x).wrote || (foldFolders env ctx l).2.1,
       (processFolder env ctx x).names ++ (foldFolders env ctx l).2.2) := by
  show List.foldl (folderFold env ctx) (folderFold env ctx ([], false, []) x) l = _
  rw [show folderFold env ctx ([], false, []) x
    = ((processFolder env ctx x).events, (processFolder env ctx x).wrote,
       (processFolder env ctx x).names) from by simp [folderFold]]
  rw [foldFolders_shift]

/-- The same environment with the folder listing replaced (a spec-side
construction: it drives the comparison run in which the failing unit is
absent). -/
def dropUnit (env : Env) (folders : List DriveFile) : Env :=
  { env with listFolders := .ok folders }

theorem processFilesGo_dropUnit (env : Env) (x : List DriveFile) (a s : String)
    (fs : List DriveFile) :
    ∀ t i e, processFilesGo (dropUnit env x) a s fs t i e = processFilesGo env a s fs t i e := by
  induction fs with
  | nil => intro t i e; rfl
  | cons f r ih =>
    intro t i e
    rw [processFilesGo, processFilesGo]
    simp only [ih]
    rfl

theorem processFolder_dropUnit (env : Env) (x : List DriveFile) (ctx : List CtxDoc)
    (g : DriveFile) : processFolder (dropUnit env x) ctx g = processFolder env ctx g := by
  have hpf : ∀ fs a s, processFiles (dropUnit env x) fs a s = processFiles env fs a s :=
    fun fs a s => processFilesGo_dropUnit env x a s fs "" [] []
  unfold processFolder
  simp only [hpf]
  rfl

/-- An `image/*` mime type is neither the document nor the spreadsheet
mime type. -/
theorem image_mime_ne (m : String) (h : jsStartsWith m "image/" = true) :
    m ≠ "application/vnd.google-apps.document"
    ∧ m ≠ "application/vnd.google-apps.spreadsheet" := by
  constructor <;> intro he <;> rw [he] at h <;> exact absurd h (by decide)

/-- The assembled text and recorded image references of the file loop do
not depend on the event accumulator. -/
theorem processFilesGo_text_ev (env : Env) (a s : String) :
    ∀ (fs : List DriveFile) (t : String) (i : List ImageRef) (e e' : List Event),
      (processFilesGo env a s fs t i e).1 = (processFilesGo env a s fs t i e').1
      ∧ (processFilesGo env a s fs t i e).2.1 = (processFilesGo env a s fs t i e').2.1 := by
  intro fs
  induction fs with
  | nil => intro t i e e'; exact ⟨rfl, rfl⟩
  | cons f r ih =>
    intro t i e e'
    rw [processFilesGo, processFilesGo]
    by_cases h1 : f.mimeType = "application/vnd.google-apps.document"
    · rw [if_pos h1, if_pos h1]
      rcases hd : env.downloadDoc f.id with e2 | c <;> simp only [hd] <;> exact ih _ _ _ _
    · rw [if_neg h1, if_neg h1]
      by_cases h2 : f.mimeType = "application/vnd.google-apps.spreadsheet"
      · rw [if_pos h2, if_pos h2]
        rcases hd : env.downloadSheet f.id with e2 | c <;> simp only [hd] <;> exact ih _ _ _ _
      · rw [if_neg h2, if_neg h2]
        by_cases h3 : jsStartsWith f.mimeType "image/" = true
        · rw [if_pos h3, if_pos h3]
          rcases hd : env.downloadImage f.id with e2 | buf
          · simp only [hd]
            exact ih _ _ _ _
          · simp only [hd]
            rcases hw : env.writeFile (a ++ "/" ++ sanitizeFileName f.name ++
                getImageExtensionIfNeeded f.name f.mimeType) buf with e2 | u <;>
              simp only [hw] <;> exact ih _ _ _ _
        · rw [if_neg h3, if_neg h3]
          exact ih _ _ _ _

/-- Every write recorded by the file loop lies under the unit's asset
directory (or was already in the accumulator). -/
theorem processFilesGo_writes (env : Env) (a s : String) :
    ∀ (fs : List DriveFile) (t : String) (i : List ImageRef) (e : List Event) (p : String),
      Event.fsWrite p ∈ (processFilesGo env a s fs t i e).2.2 →
      Event.fsWrite p ∈ e ∨ jsStartsWith p (a ++ "/") = true := by
  have step : ∀ (e : List Event) (p : String) (x : Event),
      Event.fsWrite p ∈ e ++ [x] → (∀ q, x ≠ Event.fsWrite q) → Event.fsWrite p ∈ e := by
    intro e p x hin hx
    rcases List.mem_append.mp hin with h1 | h2
    · exact h1
    · exact absurd (List.mem_singleton.mp h2).symm (hx p)
  intro fs
  induction fs with
  | nil => intro t i e p hp; exact Or.inl hp
  | cons f r ih =>
    intro t i e p hp
    rw [processFilesGo] at hp
    by_cases h1 : f.mimeType = "application/vnd.google-apps.document"
    · rw [if_pos h1] at hp
      rcases hd : env.downloadDoc f.id with e2 | c <;> simp only [hd] at hp <;>
        (rcases ih _ _ _ _ hp with hin | hpre
         · exact Or.inl (step _ _ _ hin (by intro q; simp))
         · exact Or.inr hpre)
    · rw [if_neg h1] at hp
      by_cases h2 : f.mimeType = "application/vnd.google-apps.spreadsheet"
      · rw [if_pos h2] at hp
        rcases hd : env.downloadSheet f.id with e2 | c <;> simp only [hd] at hp <;>
          (rcases ih _ _ _ _ hp with hin | hpre
           · exact Or.inl (step _ _ _ hin (by intro q; simp))
           · exact Or.inr hpre)
      · rw [if_neg h2] at hp
        by_cases h3 : jsStartsWith f.mimeType "image/" = true
        · rw [if_pos h3] at hp
          rcases hd : env.downloadImage f.id with e2 | buf
          · simp only [hd] at hp
            rcases ih _ _ _ _ hp with hin | hpre
            · exact Or.inl (step _ _ _ hin (by intro q; simp))
            · exact Or.inr hpre
          · simp only [hd] at hp
            rcases hw : env.writeFile (a ++ "/" ++ sanitizeFileName f.name ++
                getImageExtensionIfNeeded f.name f.mimeType) buf with e2 | u
            · simp only [hw] at hp
              rcases ih _ _ _ _ hp with hin | hpre
              · exact Or.inl (step _ _ _ hin (by intro q; simp))
              · exact Or.inr hpre
            · simp only [hw] at hp
              rcases ih _ _ _ _ hp with hin | hpre
              · have hsw : jsStartsWith (a ++ "/" ++ sanitizeFileName f.name ++
                    getImageExtensionIfNeeded f.name f.mimeType) (a ++ "/") = true := by
                  unfold jsStartsWith
                  have h4 : (a ++ "/" ++ sanitizeFileName f.name ++
                      getImageExtensionIfNeeded f.name f.mimeType).data
                      = ((a ++ "/").data ++ (sanitizeFileName f.name).data) ++
                          (getImageExtensionIfNeeded f.name f.mimeType).data := by
                    rw [data_append, data_append]
                  rw [h4, List.append_assoc]
                  exact startsWithL_refl_append _ _
                rcases List.mem_append.mp hin with hin2 | hin3
                · exact Or.inl hin2
                · rcases List.mem_cons.mp hin3 with he1 | hin4
                  · exact absurd he1 (by simp)
                  · rcases List.mem_cons.mp hin4 with he2 | hin5
                    · injection he2 with hpp
                      subst hpp
                      exact Or.inr hsw
                    · simp at hin5
              · exact Or.inr hpre
        · rw [if_neg h3] at hp
          exact ih _ _ _ _ hp

/-- A file whose download fails contributes nothing but the attempted
download call: the per-file catch (line 1633) swallows the error and the
loop continues with the next file. -/
theorem processFilesGo_fetchSkip (env : Env) (a s : String) (f0 : DriveFile)
    (hf : (f0.mimeType = "application/vnd.google-apps.document"
        ∧ ∃ e, env.downloadDoc f0.id = .error e)
      ∨ (f0.mimeType = "application/vnd.google-apps.spreadsheet"
        ∧ ∃ e, env.downloadSheet f0.id = .error e)
      ∨ (jsStartsWith f0.mimeType "image/" = true
        ∧ ∃ e, env.downloadImage f0.id = .error e)) :
    ∀ (rest : List DriveFile) (t : String) (i : List ImageRef) (e : List Event),
      processFilesGo env a s (f0 :: rest) t i e
        = processFilesGo env a s rest t i (e ++ [.driveDownload f0.id]) := by
  intro rest t i e
  rw [processFilesGo]
  rcases hf with ⟨hm, e0, hd⟩ | ⟨hm, e0, hd⟩ | ⟨hm, e0, hd⟩
  · rw [if_pos hm, hd]
  · have hm1 : f0.mimeType ≠ "application/vnd.google-apps.document" := by
      rw [hm]; decide
    rw [if_neg hm1, if_pos hm, hd]
  · obtain ⟨hne1, hne2⟩ := image_mime_ne f0.mimeType hm
    rw [if_neg hne1, if_neg hne2, if_pos hm, hd]

/-- Dropping a failed-download file from a unit's file list changes
neither the assembled text nor the recorded image references: the unit's
document is still produced, with exactly the content of the remaining
files. -/
theorem processFiles_skip (env : Env) (a s : String) (f0 : DriveFile)
    (hf : (f0.mimeType = "application/vnd.google-apps.document"
        ∧ ∃ e, env.downloadDoc f0.id = .error e)
      ∨ (f0.mimeType = "application/vnd.google-apps.spreadsheet"
        ∧ ∃ e, env.downloadSheet f0.id = .error e)
      ∨ (jsStartsWith f0.mimeType "image/" = true
        ∧ ∃ e, env.downloadImage f0.id = .error e)) :
    ∀ (xs ys : List DriveFile) (t : String) (i : List ImageRef) (e : List Event),
      (processFilesGo env a s (xs ++ f0 :: ys) t i e).1
          = (processFilesGo env a s (xs ++ ys) t i e).1
      ∧ (processFilesGo env a s (xs ++ f0 :: ys) t i e).2.1
          = (processFilesGo env a s (xs ++ ys) t i e).2.1 := by
  intro xs
  induction xs with
  | nil =>
    intro ys t i e
    rw [List.nil_append, List.nil_append, processFilesGo_fetchSkip env a s f0 hf ys t i e]
    exact processFilesGo_text_ev env a s ys t i _ _
  | cons x xs ih =>
    intro ys t i e
    rw [List.cons_append, List.cons_append, processFilesGo, processFilesGo]
    by_cases h1 : x.mimeType = "application/vnd.google-apps.document"
    · rw [if_pos h1, if_pos h1]
      rcases hd : env.downloadDoc x.id with e2 | c <;> simp only [hd] <;> exact ih _ _ _ _
    · rw [if_neg h1, if_neg h1]
      by_cases h2 : x.mimeType = "application/vnd.google-apps.spreadsheet"
      · rw [if_pos h2, if_pos h2]
        rcases hd : env.downloadSheet x.id with e2 | c <;> simp only [hd] <;> exact ih _ _ _ _
      · rw [if_neg h2, if_neg h2]
        by_cases h3 : jsStartsWith x.mimeType "image/" = true
        · rw [if_pos h3, if_pos h3]
          rcases hd : env.downloadImage x.id with e2 | buf
          · simp only [hd]
            exact ih _ _ _ _
          · simp only [hd]
            rcases hw : env.writeFile (a ++ "/" ++ sanitizeFileName x.name ++
                getImageExtensionIfNeeded x.name x.mimeType) buf with e2 | u <;>
              simp only [hw] <;> exact ih _ _ _ _
        · rw [if_neg h3, if_neg h3]
          exact ih _ _ _ _

/-- Structure of one unit's processing: either the unit ends in a
failure or skip branch — the flags stay untouched and every recorded
write lies under the unit's asset directory — or the full pipeline
succeeded, which pins the listing, directory creation, transformer call
and document write to `.ok` results. -/
theorem processFolder_structure (env : Env) (ctx : List CtxDoc) (fb : DriveFile) :
    ((processFolder env ctx fb).wrote = false ∧ (processFolder env ctx fb).names = []
      ∧ ∀ p, Event.fsWrite p ∈ (processFolder env ctx fb).events →
          jsStartsWith p (assetsDirOf env fb ++ "/") = true)
    ∨ ((processFolder env ctx fb).wrote = true
      ∧ ∃ files transformed,
          env.listFiles fb.id = .ok files
          ∧ env.mkdir (assetsDirOf env fb) = .ok ()
          ∧ env.transform
              (processFiles env files (assetsDirOf env fb) (sanitizeFolderName fb.name)).1
              (processFiles env files (assetsDirOf env fb) (sanitizeFolderName fb.name)).2.1
              (match env.readFile (mdFilePathOf env fb) with
                | .ok c => some (trimJs (stripSyncMetadata c))
                | .error _ => none) ctx
              = .ok transformed
          ∧ env.writeFile (mdFilePathOf env fb)
              (transformed ++ "\n\n" ++ createMetadataComment files env.now) = .ok ()) := by
  have hevc : ∀ p, Event.fsWrite p ∈
      (if checkListsDrive (env.readFile (mdFilePathOf env fb))
        then [Event.driveListFiles fb.id] else ([] : List Event)) → False := by
    intro p hp
    cases hcc : checkListsDrive (env.readFile (mdFilePathOf env fb)) <;> simp [hcc] at hp
  simp only [processFolder]
  by_cases hck : checkIfUpdateNeeded (env.readFile (mdFilePathOf env fb))
      (env.listFiles fb.id) = false
  · rw [if_pos hck]
    left
    refine ⟨by trivial, by trivial, ?_⟩
    intro p hp
    exact (hevc p hp).elim
  · rw [if_neg hck]
    rcases hlf : env.listFiles fb.id with e | files
    · simp only [hlf]
      left
      refine ⟨by trivial, by trivial, ?_⟩
      intro p hp
      rcases List.mem_append.mp hp with h1 | h2
      · exact (hevc p h1).elim
      · simp at h2
    · simp only [hlf]
      rcases hm1 : env.mkdir (dirnameJs (mdFilePathOf env fb)) with e | u
      · simp only [hm1]
        left
        refine ⟨by trivial, by trivial, ?_⟩
        intro p hp
        rcases List.mem_append.mp hp with h1 | h2
        · exact (hevc p h1).elim
        · simp at h2
      · simp only [hm1]
        rcases hm2 : env.mkdir (assetsDirOf env fb) with e | u2
        · simp only [hm2]
          left
          refine ⟨by trivial, by trivial, ?_⟩
          intro p hp
          rcases List.mem_append.mp hp with h1 | h2
          · exact (hevc p h1).elim
          · simp at h2
        · simp only [hm2]
          rcases ht : env.transform
              (processFiles env files (assetsDirOf env fb) (sanitizeFolderName fb.name)).1
              (processFiles env files (assetsDirOf env fb) (sanitizeFolderName fb.name)).2.1
              (match env.readFile (mdFilePathOf env fb) with
                | .ok c => some (trimJs (stripSyncMetadata c))
                | .error _ => none) ctx with e | tc
          · simp only [ht]
            left
            refine ⟨by trivial, by trivial, ?_⟩
            intro p hp
            rcases List.mem_append.mp hp with h1 | h2
            · rcases List.mem_append.mp h1 with h3 | h4
              · rcases List.mem_append.mp h3 with h5 | h6
                · exact (hevc p h5).elim
                · simp at h6
              · rcases processFilesGo_writes env (assetsDirOf env fb)
                    (sanitizeFolderName fb.name) files "" [] [] p h4 with h7 | h8
                · simp at h7
                · exact h8
            · simp at h2
          · simp only [ht]
            rcases hw : env.writeFile (mdFilePathOf env fb)
                (tc ++ "\n\n" ++ createMetadataComment files env.now) with e | u3
            · simp only [hw]
              left
              refine ⟨by trivial, by trivial, ?_⟩
              intro p hp
              rcases List.mem_append.mp hp with h1 | h2
              · rcases List.mem_append.mp h1 with h3 | h4
                · rcases List.mem_append.mp h3 with h5 | h6
                  · exact (hevc p h5).elim
                  · simp at h6
                · rcases processFilesGo_writes env (assetsDirOf env fb)
                      (sanitizeFolderName fb.name) files "" [] [] p h4 with h7 | h8
                  · simp at h7
                  · exact h8
              · simp at h2
            · simp only [hw]
              right
              exact ⟨by trivial, files, tc, rfl, by trivial, ht, hw⟩

/-- C6 (amended): a unit-level failure — the remote listing failing, the
filesystem failing to create the unit's asset directory or to persist its
document, or the transformer failing — is caught by the folder-level
handler: the run's outcome, final change-detection flag and
processed-folder list are exactly those of the run in which the failing
unit does not appear in the folder listing at all, so every other unit is
still processed and the top-level loop completes; no document write
succeeds for the failed unit, and every write recorded while processing
it lies under its asset directory (asset files downloaded before the
failure may persist).  A download failure of an individual file, by
contrast, is caught by the per-file handler inside the unit: the
assembled text and recorded image references are exactly those of the
file list without the failed file, so the unit's document is still
produced — with partial content — and the unit's persisted state is not
left unchanged (see the counterexample). -/
theorem sync_unitFailureIsolation (env : Env) (gs : GitStatus) (la lc : List DriveFile)
    (fb : DriveFile) (a s : String) (xs ys : List DriveFile) (f0 : DriveFile)
    (hcfg : env.configOk = true) (hst : env.gitStatus = .ok gs)
    (hclean : ∀ f ∈ gs.files, jsStartsWith f.path (env.contentPath ++ "/") = false)
    (hlf : env.listFolders = .ok (la ++ fb :: lc))
    (hkind : (∃ e, env.listFiles fb.id = .error e)
      ∨ (∃ e, env.mkdir (assetsDirOf env fb) = .error e)
      ∨ (∃ e, ∀ c, env.writeFile (mdFilePathOf env fb) c = .error e)
      ∨ (∀ txt imgs old c, ∃ e, env.transform txt imgs old c = .error e))
    (hfetch : (f0.mimeType = "application/vnd.google-apps.document"
        ∧ ∃ e, env.downloadDoc f0.id = .error e)
      ∨ (f0.mimeType = "application/vnd.google-apps.spreadsheet"
        ∧ ∃ e, env.downloadSheet f0.id = .error e)
      ∨ (jsStartsWith f0.mimeType "image/" = true
        ∧ ∃ e, env.downloadImage f0.id = .error e)) :
    (sync env).res = (sync (dropUnit env (la ++ lc))).res
    ∧ (sync env).changesDetected = (sync (dropUnit env (la ++ lc))).changesDetected
    ∧ (sync env).processedFolders = (sync (dropUnit env (la ++ lc))).processedFolders
    ∧ (∀ p, Event.fsWrite p ∈ (processFolder env (loadContextDocuments env).1 fb).events →
        jsStartsWith p (assetsDirOf env fb ++ "/") = true)
    ∧ (processFiles env (xs ++ f0 :: ys) a s).1 = (processFiles env (xs ++ ys) a s).1
    ∧ (processFiles env (xs ++ f0 :: ys) a s).2.1 = (processFiles env (xs ++ ys) a s).2.1 := by
  rcases processFolder_structure env (loadContextDocuments env).1 fb with
    ⟨hw, hn, hassets⟩ | ⟨hwT, files, tc, hok1, hok2, hok3, hok4⟩
  · have hsA := sync_normalEq env gs (la ++ fb :: lc) hcfg hst hclean hlf
    have hsB := sync_normalEq (dropUnit env (la ++ lc)) gs (la ++ lc) hcfg hst hclean rfl
    have hctx : loadContextDocuments (dropUnit env (la ++ lc)) = loadContextDocuments env := rfl
    have hpf1 : ∀ g, processFolder (dropUnit env (la ++ lc)) (loadContextDocuments env).1 g
        = processFolder env (loadContextDocuments env).1 g :=
      fun g => processFolder_dropUnit env (la ++ lc) (loadContextDocuments env).1 g
    have hff : folderFold (dropUnit env (la ++ lc)) (loadContextDocuments env).1
        = folderFold env (loadContextDocuments env).1 := by
      funext acc g
      rw [folderFold, folderFold, hpf1 g]
    have hfold : ∀ l, foldFolders (dropUnit env (la ++ lc)) (loadContextDocuments env).1 l
        = foldFolders env (loadContextDocuments env).1 l := by
      intro l
      unfold foldFolders
      rw [hff]
    have hmr2 : ∀ pf, createAndSubmitMergeRequest (dropUnit env (la ++ lc)) pf
        = createAndSubmitMergeRequest env pf := fun pf => rfl
    have hrb2 : ∀ b, returnToBranch (dropUnit env (la ++ lc)) b = returnToBranch env b :=
      fun b => rfl
    simp only [hctx, hfold, hmr2, hrb2] at hsB
    have hAppA := foldFolders_append env (loadContextDocuments env).1 la (fb :: lc)
    have hconsF := foldFolders_cons env (loadContextDocuments env).1 fb lc
    have hAppB := foldFolders_append env (loadContextDocuments env).1 la lc
    have hcd : (foldFolders env (loadContextDocuments env).1 (la ++ fb :: lc)).2.1
        = (foldFolders env (loadContextDocuments env).1 (la ++ lc)).2.1 := by
      rw [hAppA, hAppB, hconsF, hw]
      simp
    have hpfeq : (foldFolders env (loadContextDocuments env).1 (la ++ fb :: lc)).2.2
        = (foldFolders env (loadContextDocuments env).1 (la ++ lc)).2.2 := by
      rw [hAppA, hAppB, hconsF, hn]
      simp
    have hmain : (sync env).res = (sync (dropUnit env (la ++ lc))).res
        ∧ (sync env).changesDetected = (sync (dropUnit env (la ++ lc))).changesDetected
        ∧ (sync env).processedFolders = (sync (dropUnit env (la ++ lc))).processedFolders := by
      rw [hsA, hsB, hcd, hpfeq]
      cases hcdv : (foldFolders env (loadContextDocuments env).1 (la ++ lc)).2.1 with
      | false =>
        simp only [hcdv, Bool.false_eq_true, if_false]
        exact ⟨by trivial, by trivial, by trivial⟩
      | true =>
        simp only [hcdv, if_true]
        rcases hmr3 : createAndSubmitMergeRequest env
            (foldFolders env (loadContextDocuments env).1 (la ++ lc)).2.2 with ⟨res, ev, bb⟩
        cases res with
        | ok u => exact ⟨by trivial, by trivial, by trivial⟩
        | error e2 =>
          cases bb with
          | some b => exact ⟨by trivial, by trivial, by trivial⟩
          | none => exact ⟨by trivial, by trivial, by trivial⟩
    obtain ⟨hsk1, hsk2⟩ := processFiles_skip env a s f0 hfetch xs ys "" [] []
    exact ⟨hmain.1, hmain.2.1, hmain.2.2, hassets, hsk1, hsk2⟩
  · exfalso
    rcases hkind with ⟨e, he⟩ | ⟨e, he⟩ | ⟨e, he⟩ | htf
    · rw [he] at hok1
      exact absurd hok1 (by simp)
    · rw [he] at hok2
      exact absurd hok2 (by simp)
    · rw [he _] at hok4
      exact absurd hok4 (by simp)
    · obtain ⟨e, he⟩ := htf
        (processFiles env files (assetsDirOf env fb) (sanitizeFolderName fb.name)).1
        (processFiles env files (assetsDirOf env fb) (sanitizeFolderName fb.name)).2.1
        (match env.readFile (mdFilePathOf env fb) with
          | .ok c => some (trimJs (stripSyncMetadata c))
          | .error _ => none)
        (loadContextDocuments env).1
      rw [he] at hok3
      exact absurd hok3 (by simp)

/-- Three remote units; listing the middle one fails, the others carry
one document each; the download of the detached file `d0` fails. -/
def env6 : Env :=
  { baseEnv with
    listFolders := .ok [⟨"A", "Alpha", "application/vnd.google-apps.folder", "t"⟩,
      ⟨"B", "Beta", "application/vnd.google-apps.folder", "t"⟩,
      ⟨"C", "Gamma", "application/vnd.google-apps.folder", "t"⟩],
    listFiles := fun id => if id = "B" then .error "Drive-Ausfall" else .ok [someRemoteFile],
    downloadDoc := fun id => if id = "d0" then .error "Netzfehler" else .ok "Dokumenttext",
    statusAfterAdd := .ok ⟨"main", [⟨"docs/alpha.md"⟩]⟩ }

/-- The failing file used by the witness for the fetch-failure part. -/
def failingDoc : DriveFile := ⟨"d0", "Zwei", "application/vnd.google-apps.document", "t"⟩

theorem sync_unitFailureIsolation_witness :
    (sync env6).res
      = (sync (dropUnit env6 ([⟨"A", "Alpha", "application/vnd.google-apps.folder", "t"⟩]
          ++ [⟨"C", "Gamma", "application/vnd.google-apps.folder", "t"⟩]))).res
    ∧ (sync env6).changesDetected
      = (sync (dropUnit env6 ([⟨"A", "Alpha", "application/vnd.google-apps.folder", "t"⟩]
          ++ [⟨"C", "Gamma", "application/vnd.google-apps.folder", "t"⟩]))).changesDetected
    ∧ (sync env6).processedFolders
      = (sync (dropUnit env6 ([⟨"A", "Alpha", "application/vnd.google-apps.folder", "t"⟩]
          ++ [⟨"C", "Gamma", "application/vnd.google-apps.folder", "t"⟩]))).processedFolders
    ∧ (∀ p, Event.fsWrite p ∈ (processFolder env6 (loadContextDocuments env6).1
          ⟨"B", "Beta", "application/vnd.google-apps.folder", "t"⟩).events →
        jsStartsWith p (assetsDirOf env6
          ⟨"B", "Beta", "application/vnd.google-apps.folder", "t"⟩ ++ "/") = true)
    ∧ (processFiles env6 ([someRemoteFile] ++ failingDoc :: []) "/repo/docs/assets/alpha"
          "alpha").1
      = (processFiles env6 ([someRemoteFile] ++ []) "/repo/docs/assets/alpha" "alpha").1
    ∧ (processFiles env6 ([someRemoteFile] ++ failingDoc :: []) "/repo/docs/assets/alpha"
          "alpha").2.1
      = (processFiles env6 ([someRemoteFile] ++ []) "/repo/docs/assets/alpha" "alpha").2.1 :=
  sync_unitFailureIsolation env6 ⟨"main", []⟩
    [⟨"A", "Alpha", "application/vnd.google-apps.folder", "t"⟩]
    [⟨"C", "Gamma", "application/vnd.google-apps.folder", "t"⟩]
    ⟨"B", "Beta", "application/vnd.google-apps.folder", "t"⟩
    "/repo/docs/assets/alpha" "alpha" [someRemoteFile] [] failingDoc
    rfl rfl (by decide) rfl
    (Or.inl ⟨"Drive-Ausfall", by rfl⟩)
    (Or.inl ⟨rfl, "Netzfehler", by rfl⟩)

/-- A unit with two documents whose second download fails. -/
def env6c : Env :=
  { baseEnv with
    listFolders := .ok [⟨"A", "Alpha", "application/vnd.google-apps.folder", "t"⟩],
    listFiles := fun id => if id = "A"
      then .ok [⟨"d1", "Eins", "application/vnd.google-apps.document", "t"⟩,
        ⟨"d2", "Zwei", "application/vnd.google-apps.document", "t"⟩]
      else .ok [],
    downloadDoc := fun id => if id = "d2" then .error "Netzfehler" else .ok "Inhalt Eins",
    transform := fun txt _ _ _ => .ok txt,
    statusAfterAdd := .ok ⟨"main", [⟨"docs/alpha.md"⟩]⟩ }

/-- A unit with one image whose transformer call fails after the image
was written. -/
def env6t : Env :=
  { baseEnv with
    listFolders := .ok [⟨"B", "Beta", "application/vnd.google-apps.folder", "t"⟩],
    listFiles := fun id => if id = "B" then .ok [⟨"i1", "Foto.png", "image/png", "t"⟩]
      else .ok [],
    transform := fun _ _ _ _ => .error "Gemini-Ausfall" }

/-- Two runs refuting the original claim's "the failed unit's persisted
state is left unchanged (no partial document write occurs for it)".
First run: the download of file `d2` inside unit `Alpha` fails, yet the
run succeeds and the unit's document IS written — with the content of
the remaining file only (a partial document write).  Second run: the
transformer fails for unit `Beta` after its image was downloaded, so no
document is written and the unit is not marked processed, but the image
asset write has already persisted — the unit's state is not unchanged
either. -/
theorem fetchFailure_partialWrite :
    env6c.downloadDoc "d2" = .error "Netzfehler"
    ∧ (sync env6c).res = .ok ()
    ∧ (sync env6c).processedFolders = ["Alpha"]
    ∧ Event.driveDownload "d2" ∈ (sync env6c).trace
    ∧ Event.fsWrite "/repo/docs/alpha.md" ∈ (sync env6c).trace
    ∧ (processFiles env6c [⟨"d1", "Eins", "application/vnd.google-apps.document", "t"⟩,
        ⟨"d2", "Zwei", "application/vnd.google-apps.document", "t"⟩]
        (assetsDirOf env6c ⟨"A", "Alpha", "application/vnd.google-apps.folder", "t"⟩)
        "alpha").1
      = "\n\n## Eins\n\nInhalt Eins"
    ∧ (sync env6t).res = .ok ()
    ∧ (sync env6t).processedFolders = []
    ∧ (sync env6t).changesDetected = false
    ∧ Event.fsWrite "/repo/docs/assets/beta/Foto.png" ∈ (sync env6t).trace
    ∧ Event.fsWrite "/repo/docs/beta.md" ∉ (sync env6t).trace := by
  refine ⟨rfl, rfl, rfl, by decide, by decide, rfl, rfl, rfl, rfl, by decide, by decide⟩

/-! ## C7: round-trip of the watermark codec -/

/-- Is the first character (if any) non-whitespace? -/
def headNotWs (l : List Char) : Bool :=
  match l with
  | [] => false
  | c :: _ => !jsWs c

/-- Executable substring check. -/
def hasInfix : List Char → List Char → Bool
  | [], pat => startsWithL pat []
  | c :: cs, pat => startsWithL pat (c :: cs) || hasInfix cs pat

theorem startsWithL_length_le {lit s : List Char} (h : startsWithL lit s = true) :
    lit.length ≤ s.length := by
  obtain ⟨r, rfl⟩ := (startsWithL_iff lit s).mp h
  simp

theorem startsWithL_append_of_le (lit : List Char) :
    ∀ (s x : List Char), lit.length ≤ s.length →
      startsWithL lit (s ++ x) = startsWithL lit s := by
  induction lit with
  | nil => intro s x h; rfl
  | cons l ls ih =>
    intro s x h
    cases s with
    | nil => simp at h
    | cons c cs =>
      rw [List.cons_append, startsWithL, startsWithL, ih cs x (by simpa using h)]

theorem stripLit_eq_none {lit : List Char} :
    ∀ {s : List Char}, startsWithL lit s = false → stripLit lit s = none := by
  induction lit with
  | nil => intro s h; simp [startsWithL] at h
  | cons l ls ih =>
    intro s h
    cases s with
    | nil => rfl
    | cons c cs =>
      rw [startsWithL] at h
      rw [stripLit]
      by_cases hc : l = c
      · subst hc
        have h2 : startsWithL ls cs = false := by
          by_contra hx
          rw [Bool.not_eq_false] at hx
          rw [hx] at h
          simp at h
        simp [ih h2]
      · simp [hc]

theorem stripLit_append (lit r : List Char) : stripLit lit (lit ++ r) = some r := by
  induction lit with
  | nil => rfl
  | cons l ls ih => simp [stripLit, ih]

theorem hasInfix_iff (pat : List Char) :
    ∀ l, hasInfix l pat = true ↔ ∃ s, s <:+ l ∧ startsWithL pat s = true := by
  intro l
  induction l with
  | nil =>
    rw [hasInfix]
    constructor
    · intro h; exact ⟨[], List.suffix_refl [], h⟩
    · rintro ⟨s, hs, hsw⟩
      rw [List.suffix_nil.mp hs] at hsw
      exact hsw
  | cons c cs ih =>
    rw [hasInfix, Bool.or_eq_true, ih]
    constructor
    · rintro (h | ⟨s, hs, hsw⟩)
      · exact ⟨c :: cs, List.suffix_refl _, h⟩
      · exact ⟨s, hs.trans (List.suffix_cons c cs), hsw⟩
    · rintro ⟨s, hs, hsw⟩
      rcases hs with ⟨t, ht⟩
      cases t with
      | nil => exact Or.inl (by simpa using ht ▸ hsw)
      | cons a t2 =>
        right
        refine ⟨s, ⟨t2, ?_⟩, hsw⟩
        injection ht with h1 h2

theorem skipWsL_suffix (l : List Char) : skipWsL l <:+ l := by
  induction l with
  | nil => exact List.suffix_refl []
  | cons c cs ih =>
    rw [skipWsL]
    split
    · exact ih.trans (List.suffix_cons c cs)
    · exact List.suffix_refl _

theorem skipWsL_head (l : List Char) :
    skipWsL l = [] ∨ ∃ c r, skipWsL l = c :: r ∧ jsWs c = false := by
  induction l with
  | nil => exact Or.inl rfl
  | cons c cs ih =>
    rw [skipWsL]
    split
    · exact ih
    · rename_i hc
      exact Or.inr ⟨c, cs, rfl, by simpa using hc⟩

theorem skipWsL_eq_nil {l : List Char} (h : skipWsL l = []) : ∀ c ∈ l, jsWs c = true := by
  induction l with
  | nil => intro c hc; simp at hc
  | cons c cs ih =>
    rw [skipWsL] at h
    intro a ha
    split at h
    · rename_i hc
      rcases List.mem_cons.mp ha with rfl | ha2
      · exact hc
      · exact ih h a ha2
    · simp at h

theorem skipWsL_append (l r : List Char) :
    skipWsL (l ++ r) = if skipWsL l = [] then skipWsL r else skipWsL l ++ r := by
  induction l with
  | nil => simp [skipWsL]
  | cons c cs ih =>
    rw [List.cons_append, skipWsL, skipWsL]
    split
    · exact ih
    · simp

theorem tryK_go (lit mid after : List Char)
    (hok : skipWsL (mid ++ (lit ++ after)) = lit ++ after) :
    ∀ (seg acc : List Char), seg ≠ [] →
      (∀ k, 1 ≤ k → k < seg.length →
        startsWithL lit (skipWsL (seg.drop k ++ (mid ++ (lit ++ after)))) = false) →
      tryK lit acc (seg ++ (mid ++ (lit ++ after))) = some (acc.reverse ++ seg, after) := by
  intro seg
  induction seg with
  | nil => intro acc h; exact absurd rfl h
  | cons c cs ih =>
    intro acc _ hfail
    rw [List.cons_append, tryK]
    cases cs with
    | nil =>
      simp only [List.nil_append, hok, startsWithL_refl_append, if_true]
      rw [List.drop_left]
      simp
    | cons c2 cs2 =>
      have hf1 := hfail 1 (Nat.le_refl 1) (by simp)
      simp only [List.drop_succ_cons, List.drop_zero] at hf1
      rw [hf1]
      simp only [Bool.false_eq_true, if_false]
      have := ih (c :: acc) (by simp)
        (fun k hk1 hk2 => by
          have := hfail (k + 1) (by omega)
            (by simp only [List.length_cons] at hk2 ⊢; omega)
          simpa using this)
      rw [this]
      simp

theorem matchLazyFull_exact (lit seg mid after : List Char)
    (hsegne : seg ≠ [])
    (hseghead : headNotWs seg = true)
    (hfail : ∀ k, 1 ≤ k → k < seg.length →
      startsWithL lit (skipWsL (seg.drop k ++ (mid ++ (lit ++ after)))) = false)
    (hok : skipWsL (mid ++ (lit ++ after)) = lit ++ after) :
    matchLazyFull lit (' ' :: (seg ++ (mid ++ (lit ++ after)))) = some (seg, after) := by
  have hwc : wsCount (' ' :: (seg ++ (mid ++ (lit ++ after)))) = 1 := by
    cases seg with
    | nil => exact absurd rfl hsegne
    | cons c cs =>
      rw [headNotWs] at hseghead
      rw [wsCount, List.cons_append, wsCount]
      simp only [show jsWs ' ' = true from rfl, if_true]
      simp only [Bool.not_eq_true'] at hseghead
      simp [hseghead]
  unfold matchLazyFull
  rw [hwc]
  rw [lazyMatch]
  rw [List.drop_succ_cons, List.drop_zero]
  rw [tryK_go lit mid after hok seg [] hsegne hfail]
  simp

theorem scanMeta_append (rest : List Char) :
    ∀ p : List Char,
      (∀ s, s ≠ [] → s <:+ p → startsWithL "<!--".data (s ++ rest) = false) →
      scanMeta (p ++ rest) = scanMeta rest := by
  intro p
  induction p with
  | nil => intro _; rfl
  | cons c cs ih =>
    intro h
    rw [List.cons_append, scanMeta]
    have h1 : startsWithL "<!--".data ((c :: cs) ++ rest) = false :=
      h (c :: cs) (by simp) (List.suffix_refl _)
    have h2 : matchMetaAt ((c :: cs) ++ rest) = none := by
      unfold matchMetaAt
      rw [stripLit_eq_none h1]
    rw [List.cons_append] at h2
    rw [h2]
    exact ih fun s hne hs => h s hne (hs.trans (List.suffix_cons c cs))

theorem suffix_append_cases {α : Type} {l₂ : List α} :
    ∀ {l l₁ : List α}, l <:+ l₁ ++ l₂ →
      l <:+ l₂ ∨ ∃ l₃, l₃ <:+ l₁ ∧ l = l₃ ++ l₂ := by
  intro l l₁
  induction l₁ generalizing l with
  | nil => intro h; exact Or.inl h
  | cons a t ih =>
    intro h
    rcases List.suffix_cons_iff.mp h with rfl | h2
    · exact Or.inr ⟨a :: t, List.suffix_refl _, rfl⟩
    · rcases ih h2 with h3 | ⟨l₃, hsuf, rfl⟩
      · exact Or.inl h3
      · exact Or.inr ⟨l₃, hsuf.trans (List.suffix_cons a t), rfl⟩

theorem hasInfix_append_nl (body : List Char)
    (h : hasInfix (body ++ ['\n', '\n']) "<!--".data = true) :
    hasInfix body "<!--".data = true := by
  obtain ⟨s, hs, hsw⟩ := (hasInfix_iff _ _).mp h
  rcases suffix_append_cases hs with hs2 | ⟨s3, hs3, heq⟩
  · have hlen := startsWithL_length_le hsw
    have hle : s.length ≤ 2 := List.IsSuffix.length_le hs2
    simp at hlen
    omega
  · subst heq
    obtain ⟨r, hr⟩ := (startsWithL_iff _ _).mp hsw
    rcases s3 with _ | ⟨a, s4⟩
    · simp at hr
    rcases s4 with _ | ⟨b, s5⟩
    · simp at hr
    rcases s5 with _ | ⟨d, s6⟩
    · simp at hr
    rcases s6 with _ | ⟨e, s7⟩
    · simp at hr
    · have hge : ("<!--".data).length ≤ (a :: b :: d :: e :: s7).length := by simp
      rw [startsWithL_append_of_le _ _ _ hge] at hsw
      exact (hasInfix_iff _ _).mpr ⟨a :: b :: d :: e :: s7, hs3, hsw⟩

theorem scanMeta_skip (body blockTail : List Char)
    (hbody : hasInfix body "<!--".data = false) :
    scanMeta ((body ++ ['\n', '\n']) ++ ('<' :: blockTail)) = scanMeta ('<' :: blockTail) := by
  have hopen : "<!--".data = ['<', '!', '-', '-'] := rfl
  apply scanMeta_append
  intro s hne hs
  by_contra hx
  rw [Bool.not_eq_false] at hx
  rcases s with _ | ⟨a, s1⟩
  · exact hne rfl
  rcases s1 with _ | ⟨b, s2⟩
  · obtain ⟨r, hr⟩ := (startsWithL_iff _ _).mp hx
    rw [hopen] at hr
    simp at hr
  rcases s2 with _ | ⟨c, s3⟩
  · obtain ⟨r, hr⟩ := (startsWithL_iff _ _).mp hx
    rw [hopen] at hr
    simp at hr
  rcases s3 with _ | ⟨d, s4⟩
  · obtain ⟨r, hr⟩ := (startsWithL_iff _ _).mp hx
    rw [hopen] at hr
    simp at hr
  · have hge : ("<!--".data).length ≤ (a :: b :: c :: d :: s4).length := by
      rw [hopen]; simp
    rw [startsWithL_append_of_le _ _ _ hge] at hx
    have hinf : hasInfix (body ++ ['\n', '\n']) "<!--".data = true :=
      (hasInfix_iff _ _).mpr ⟨_, hs, hx⟩
    have := hasInfix_append_nl body hinf
    rw [this] at hbody
    exact absurd hbody (by simp)

/-- The characters `toISOString` can emit. -/
def isoChar (c : Char) : Bool :=
  c.isDigit || c = '-' || c = ':' || c = '.' || c = 'T' || c = 'Z'

theorem jsWs_dch {n : Nat} (h : n < 10) : jsWs (dch n) = false := by
  interval_cases n <;> rfl

theorem isoChar_dch {n : Nat} (h : n < 10) : isoChar (dch n) = true := by
  interval_cases n <;> rfl

theorem pad2_chars {n : Nat} : ∀ c ∈ pad2 n, isoChar c = true := by
  intro c hc
  have h10 : ∀ k : Nat, k % 10 < 10 := fun k => Nat.mod_lt _ (by omega)
  simp only [pad2, List.mem_cons, List.not_mem_nil, or_false] at hc
  rcases hc with rfl | rfl <;> exact isoChar_dch (h10 _)

theorem pad3_chars {n : Nat} : ∀ c ∈ pad3 n, isoChar c = true := by
  intro c hc
  have h10 : ∀ k : Nat, k % 10 < 10 := fun k => Nat.mod_lt _ (by omega)
  simp only [pad3, List.mem_cons, List.not_mem_nil, or_false] at hc
  rcases hc with rfl | rfl | rfl <;> exact isoChar_dch (h10 _)

theorem pad4_chars {n : Nat} : ∀ c ∈ pad4 n, isoChar c = true := by
  intro c hc
  have h10 : ∀ k : Nat, k % 10 < 10 := fun k => Nat.mod_lt _ (by omega)
  simp only [pad4, List.mem_cons, List.not_mem_nil, or_false] at hc
  rcases hc with rfl | rfl | rfl | rfl <;> exact isoChar_dch (h10 _)

theorem toISO_chars (t : DateRec) : ∀ c ∈ (toISOString t).data, isoChar c = true := by
  intro c hc
  have hc2 : c ∈ pad4 t.y ++ '-' :: pad2 t.mo ++ '-' :: pad2 t.d ++ 'T' :: pad2 t.h ++
      ':' :: pad2 t.mi ++ ':' :: pad2 t.s ++ '.' :: pad3 t.ms ++ ['Z'] := hc
  simp only [List.append_assoc] at hc2
  rcases List.mem_append.mp hc2 with h | h
  · exact pad4_chars c h
  rcases List.mem_append.mp h with h | h
  · rcases List.mem_cons.mp h with rfl | h
    · rfl
    · exact pad2_chars c h
  rcases List.mem_append.mp h with h | h
  · rcases List.mem_cons.mp h with rfl | h
    · rfl
    · exact pad2_chars c h
  rcases List.mem_append.mp h with h | h
  · rcases List.mem_cons.mp h with rfl | h
    · rfl
    · exact pad2_chars c h
  rcases List.mem_append.mp h with h | h
  · rcases List.mem_cons.mp h with rfl | h
    · rfl
    · exact pad2_chars c h
  rcases List.mem_append.mp h with h | h
  · rcases List.mem_cons.mp h with rfl | h
    · rfl
    · exact pad2_chars c h
  rcases List.mem_append.mp h with h | h
  · rcases List.mem_cons.mp h with rfl | h
    · rfl
    · exact pad3_chars c h
  rcases List.mem_singleton.mp h with rfl
  rfl

theorem isoChar_not_ws {c : Char} (h : isoChar c = true) : jsWs c = false := by
  by_contra hne
  rw [Bool.not_eq_false] at hne
  simp only [jsWs, Bool.or_eq_true, decide_eq_true_eq] at hne
  rcases hne with ((((h1 | h2) | h3) | h4) | h5) | h6 <;> subst_vars <;>
    exact absurd h (by decide)

theorem isoChar_ne_s {c : Char} (h : isoChar c = true) : c ≠ 's' := by
  intro he
  subst he
  exact absurd h (by decide)

theorem startsWithL_cons_ne {l c : Char} {ls cs : List Char} (h : l ≠ c) :
    startsWithL (l :: ls) (c :: cs) = false := by
  simp [startsWithL, h]

theorem toISO_ne_nil (t : DateRec) : (toISOString t).data ≠ [] := by
  simp [toISOString, pad4]

theorem toISO_headNotWs (t : DateRec) : headNotWs (toISOString t).data = true := by
  have h10 : t.y / 1000 % 10 < 10 := Nat.mod_lt _ (by omega)
  simp only [toISOString, pad4, List.cons_append, headNotWs]
  simp [jsWs_dch h10]

theorem iso_fail (t : DateRec) (X : List Char) :
    ∀ k, 1 ≤ k → k < (toISOString t).data.length →
      startsWithL "source_files:".data (skipWsL ((toISOString t).data.drop k ++ X)) = false := by
  intro k _ hk2
  have hne : (toISOString t).data.drop k ≠ [] := by
    rw [Ne, List.drop_eq_nil_iff]
    omega
  obtain ⟨c, r, hcr⟩ := List.exists_cons_of_ne_nil hne
  have hmem : c ∈ (toISOString t).data :=
    List.drop_subset k _ (hcr ▸ List.mem_cons_self c r)
  have hiso := toISO_chars t c hmem
  rw [hcr, List.cons_append]
  rw [show skipWsL (c :: (r ++ X)) = c :: (r ++ X) from by
    rw [skipWsL]; simp [isoChar_not_ws hiso]]
  rw [show "source_files:".data = 's' :: "ource_files:".data from rfl]
  exact startsWithL_cons_ne (fun he => isoChar_ne_s hiso he.symm)

theorem skipWsL_ws {c : Char} (h : jsWs c = true) (r : List Char) :
    skipWsL (c :: r) = skipWsL r := by
  rw [skipWsL]; simp [h]

theorem skipWsL_nonws {c : Char} (h : jsWs c = false) (r : List Char) :
    skipWsL (c :: r) = c :: r := by
  rw [skipWsL]; simp [h]

theorem mk_data (s : String) : String.mk s.data = s := rfl

/-- No start position strictly inside the manifest text can reach the
closing arrow of the surrounding block, provided the manifest itself does
not contain `-->` and does not end in whitespace. -/
theorem listD_fail (L : List Char)
    (hlast : headNotWs L.reverse = true)
    (harrow : hasInfix L "-->".data = false) :
    ∀ k, 1 ≤ k → k < L.length →
      startsWithL "-->".data
        (skipWsL (L.drop k ++ (['\n'] ++ ("-->".data ++ ['\n', '\n'])))) = false := by
  intro k hk1 hk2
  rw [show (['\n'] ++ ("-->".data ++ ['\n', '\n']) : List Char)
      = '\n' :: '-' :: '-' :: '>' :: '\n' :: '\n' :: [] from rfl]
  rw [skipWsL_append]
  by_cases hnil : skipWsL (L.drop k) = []
  · exfalso
    have hdne : L.drop k ≠ [] := by
      rw [Ne, List.drop_eq_nil_iff]; omega
    have hrne : (L.drop k).reverse ≠ [] := by
      rw [Ne, List.reverse_eq_nil_iff]; exact hdne
    obtain ⟨c, r, hcr⟩ := List.exists_cons_of_ne_nil hrne
    have hLrev : L.reverse = c :: (r ++ (L.take k).reverse) := by
      conv_lhs => rw [← List.take_append_drop k L]
      rw [List.reverse_append, hcr, List.cons_append]
    rw [hLrev, headNotWs, Bool.not_eq_true'] at hlast
    have hcmem : c ∈ L.drop k := by
      rw [← List.mem_reverse, hcr]; exact List.mem_cons_self c r
    have := skipWsL_eq_nil hnil c hcmem
    rw [this] at hlast
    exact Bool.noConfusion hlast
  · rw [if_neg hnil]
    obtain ⟨c, r, hcr⟩ := List.exists_cons_of_ne_nil hnil
    rw [hcr]
    have hsfx : c :: r <:+ L := by
      have h1 : skipWsL (L.drop k) <:+ L.drop k := skipWsL_suffix _
      rw [hcr] at h1
      exact h1.trans (List.drop_suffix k L)
    cases r with
    | nil =>
      rw [show ("-->".data : List Char) = ['-', '-', '>'] from rfl]
      simp [startsWithL]
    | cons r0 r1 =>
      cases r1 with
      | nil =>
        rw [show ("-->".data : List Char) = ['-', '-', '>'] from rfl]
        simp [startsWithL]
      | cons r2 r3 =>
        rw [startsWithL_append_of_le _ _ _ (by simp)]
        by_contra hx
        rw [Bool.not_eq_false] at hx
        have : hasInfix L "-->".data = true :=
          (hasInfix_iff "-->".data L).mpr ⟨_, hsfx, hx⟩
        rw [this] at harrow
        exact Bool.noConfusion harrow

theorem skipWsL_eq_self {l : List Char} (h : headNotWs l = true) : skipWsL l = l := by
  cases l with
  | nil => rfl
  | cons c r =>
    rw [headNotWs, Bool.not_eq_true'] at h
    exact skipWsL_nonws h r

/-- The full metadata pattern matches at the start of the watermark block
and captures exactly the ISO timestamp and the manifest string, provided
the manifest is nonempty, has no whitespace at either edge, and does not
contain the closing arrow. -/
theorem matchMetaAt_block (files : List DriveFile) (t : DateRec)
    (hfirst : headNotWs (fileListString files).data = true)
    (hlast : headNotWs (fileListString files).data.reverse = true)
    (harrow : hasInfix (fileListString files).data "-->".data = false) :
    matchMetaAt (createMetadataComment files t).data
      = some ((toISOString t).data, (fileListString files).data) := by
  have hLne : (fileListString files).data ≠ [] := by
    intro h
    rw [h] at hfirst
    exact Bool.noConfusion hfirst
  have hblock : (createMetadataComment files t).data
      = "<!--".data ++ (' ' :: '\n' :: ("SYNC_METADATA:".data ++
          ('\n' :: ("last_sync:".data ++ (' ' :: ((toISOString t).data ++
            ('\n' :: ("source_files:".data ++ (' ' :: ((fileListString files).data ++
              ('\n' :: ("-->".data ++ ['\n', '\n'])))))))))))) := rfl
  have h2 : skipWsL (' ' :: '\n' :: ("SYNC_METADATA:".data ++
      ('\n' :: ("last_sync:".data ++ (' ' :: ((toISOString t).data ++
        ('\n' :: ("source_files:".data ++ (' ' :: ((fileListString files).data ++
          ('\n' :: ("-->".data ++ ['\n', '\n']))))))))))))
      = "SYNC_METADATA:".data ++
          ('\n' :: ("last_sync:".data ++ (' ' :: ((toISOString t).data ++
            ('\n' :: ("source_files:".data ++ (' ' :: ((fileListString files).data ++
              ('\n' :: ("-->".data ++ ['\n', '\n'])))))))))) := by
    rw [skipWsL_ws (by decide), skipWsL_ws (by decide)]
    exact skipWsL_eq_self (by rfl)
  have h3 : skipWsL ('\n' :: ("last_sync:".data ++ (' ' :: ((toISOString t).data ++
      ('\n' :: ("source_files:".data ++ (' ' :: ((fileListString files).data ++
        ('\n' :: ("-->".data ++ ['\n', '\n']))))))))))
      = "last_sync:".data ++ (' ' :: ((toISOString t).data ++
          ('\n' :: ("source_files:".data ++ (' ' :: ((fileListString files).data ++
            ('\n' :: ("-->".data ++ ['\n', '\n'])))))))) := by
    rw [skipWsL_ws (by decide)]
    exact skipWsL_eq_self (by rfl)
  have hok1 : skipWsL (['\n'] ++ ("source_files:".data ++ (' ' :: ((fileListString files).data ++
      ('\n' :: ("-->".data ++ ['\n', '\n']))))))
      = "source_files:".data ++ (' ' :: ((fileListString files).data ++
          ('\n' :: ("-->".data ++ ['\n', '\n'])))) := by
    rw [show (['\n'] ++ ("source_files:".data ++ (' ' :: ((fileListString files).data ++
        ('\n' :: ("-->".data ++ ['\n', '\n']))))) : List Char)
      = '\n' :: ("source_files:".data ++ (' ' :: ((fileListString files).data ++
          ('\n' :: ("-->".data ++ ['\n', '\n']))))) from rfl]
    rw [skipWsL_ws (by decide)]
    exact skipWsL_eq_self (by rfl)
  have h4 : matchLazyFull "source_files:".data
      (' ' :: ((toISOString t).data ++ ('\n' :: ("source_files:".data ++
        (' ' :: ((fileListString files).data ++ ('\n' :: ("-->".data ++ ['\n', '\n']))))))))
      = some ((toISOString t).data,
          ' ' :: ((fileListString files).data ++ ('\n' :: ("-->".data ++ ['\n', '\n'])))) :=
    matchLazyFull_exact "source_files:".data (toISOString t).data ['\n']
      (' ' :: ((fileListString files).data ++ ('\n' :: ("-->".data ++ ['\n', '\n']))))
      (toISO_ne_nil t) (toISO_headNotWs t)
      (iso_fail t (['\n'] ++ ("source_files:".data ++
        (' ' :: ((fileListString files).data ++ ('\n' :: ("-->".data ++ ['\n', '\n'])))))))
      hok1
  have hok2 : skipWsL (['\n'] ++ ("-->".data ++ ['\n', '\n'])) = "-->".data ++ ['\n', '\n'] := by
    decide
  have h5 : matchLazyFull "-->".data
      (' ' :: ((fileListString files).data ++ ('\n' :: ("-->".data ++ ['\n', '\n']))))
      = some ((fileListString files).data, ['\n', '\n']) :=
    matchLazyFull_exact "-->".data (fileListString files).data ['\n'] ['\n', '\n']
      hLne hfirst (listD_fail (fileListString files).data hlast harrow) hok2
  rw [hblock]
  unfold matchMetaAt
  rw [stripLit_append]
  simp only [h2, stripLit_append, h3, h4, h5]

theorem intercalate_go_last (s : String) :
    ∀ (as : List String) (acc : String) (r : List Char),
      acc.data.reverse = ')' :: r →
      (∀ a ∈ as, ∃ r2 : List Char, a.data.reverse = ')' :: r2) →
      ∃ r3 : List Char, (String.intercalate.go acc s as).data.reverse = ')' :: r3 := by
  intro as
  induction as with
  | nil =>
    intro acc r hacc _
    exact ⟨r, by simp only [String.intercalate.go]; exact hacc⟩
  | cons a as ih =>
    intro acc r hacc hall
    obtain ⟨r2, hr2⟩ := hall a (List.mem_cons_self a as)
    have hnew : ((acc ++ s) ++ a).data.reverse = ')' :: (r2 ++ ((acc ++ s).data).reverse) := by
      rw [data_append, List.reverse_append, hr2]
      rfl
    simp only [String.intercalate.go]
    exact ih ((acc ++ s) ++ a) (r2 ++ ((acc ++ s).data).reverse) hnew
      (fun b hb => hall b (List.mem_cons_of_mem a hb))

/-- A nonempty serialized manifest always ends in the closing parenthesis
of the last `name (id)` entry. -/
theorem fileListString_ends_paren (files : List DriveFile) (hne : files ≠ []) :
    ∃ r : List Char, ((fileListString files).data).reverse = ')' :: r := by
  have hmap : ∀ g : DriveFile, ∃ r2 : List Char,
      ((g.name ++ " (" ++ g.id ++ ")").data).reverse = ')' :: r2 := by
    intro g
    refine ⟨((g.name ++ " (" ++ g.id).data).reverse, ?_⟩
    rw [data_append, List.reverse_append]
    rfl
  cases files with
  | nil => exact absurd rfl hne
  | cons f fs =>
    unfold fileListString
    rw [List.map_cons]
    simp only [String.intercalate]
    obtain ⟨r2, hr2⟩ := hmap f
    refine intercalate_go_last ", " (fs.map fun g => g.name ++ " (" ++ g.id ++ ")")
      (f.name ++ " (" ++ f.id ++ ")") r2 hr2 ?_
    intro b hb
    obtain ⟨g, _, rfl⟩ := List.mem_map.mp hb
    exact hmap g

/-- C7 (amended): appending the watermark block produced by
`createMetadataComment` to a document body and decoding it with
`extractMetadata` round-trips the manifest string and the timestamp
exactly (to full millisecond precision), for every valid timestamp and
every nonempty manifest whose serialization does not start with
whitespace and does not contain the closing arrow `-->`, appended to any
body that does not contain the comment opener `<!--`.  Each of these
side conditions is forced by a decode failure exhibited in the
counterexample: the empty manifest decodes as `"\n"`, a leading-
whitespace manifest is trimmed by the greedy `\s*`, a manifest
containing `-->` is truncated at it, and a body containing an unclosed
`<!-- SYNC_METADATA:` prefix mis-anchors the match and loses the
timestamp. -/
theorem metadata_roundTrip (body : String) (files : List DriveFile) (t : DateRec)
    (hvalid : isValidRec t = true)
    (hbody : hasInfix body.data "<!--".data = false)
    (hne : files ≠ [])
    (hfirst : headNotWs (fileListString files).data = true)
    (harrow : hasInfix (fileListString files).data "-->".data = false) :
    extractMetadata (body ++ "\n\n" ++ createMetadataComment files t)
      = some ⟨some t, fileListString files⟩ := by
  have hlast : headNotWs ((fileListString files).data).reverse = true := by
    obtain ⟨r, hr⟩ := fileListString_ends_paren files hne
    rw [hr, headNotWs]
    rfl
  have hdata : (body ++ "\n\n" ++ createMetadataComment files t).data
      = (body.data ++ ['\n', '\n']) ++
          ('<' :: ("!-- \nSYNC_METADATA:\nlast_sync: ".data ++ ((toISOString t).data ++
            ("\nsource_files: ".data ++ ((fileListString files).data ++ "\n-->\n\n".data))))) := by
    simp only [data_append, List.append_assoc]
    rfl
  have hmm : matchMetaAt ('<' :: ("!-- \nSYNC_METADATA:\nlast_sync: ".data ++
      ((toISOString t).data ++ ("\nsource_files: ".data ++
        ((fileListString files).data ++ "\n-->\n\n".data)))))
      = some ((toISOString t).data, (fileListString files).data) :=
    matchMetaAt_block files t hfirst hlast harrow
  unfold extractMetadata
  rw [hdata, scanMeta_skip body.data _ hbody, scanMeta]
  simp only [hmm, mk_data, parseJsDate_toISOString hvalid]

/-- Concrete instance of the round trip: a one-entry manifest and the
timestamp 2025-01-02T03:04:05.006Z decode back exactly. -/
theorem metadata_roundTrip_witness :
    isValidRec ⟨2025, 1, 2, 3, 4, 5, 6⟩ = true ∧
    extractMetadata ("# Seite" ++ "\n\n" ++ createMetadataComment
        [⟨"abc123", "Dokument.gdoc", "application/vnd.google-apps.document", "x"⟩]
        ⟨2025, 1, 2, 3, 4, 5, 6⟩)
      = some ⟨some ⟨2025, 1, 2, 3, 4, 5, 6⟩,
          fileListString
            [⟨"abc123", "Dokument.gdoc", "application/vnd.google-apps.document", "x"⟩]⟩ :=
  ⟨by decide,
    metadata_roundTrip "# Seite"
      [⟨"abc123", "Dokument.gdoc", "application/vnd.google-apps.document", "x"⟩]
      ⟨2025, 1, 2, 3, 4, 5, 6⟩ (by decide) (by decide) (by decide) (by decide) (by decide)⟩

/-- Four concrete decode failures of the codec, one per side condition of
the amended round trip.  (1) The empty manifest serializes to `""`, but
the lazy `(.+?)` capture must consume at least one character, so decoding
returns `source_files = "\n"`.  (2) A manifest whose serialization starts
with whitespace (file name `" Bild"`) is trimmed by the greedy `\s*`
after `source_files:`.  (3) A manifest containing `-->` (file name
`"a-->b"`) is truncated at the arrow.  (4) A body containing an unclosed
`<!-- SYNC_METADATA:\nlast_sync:` prefix mis-anchors the match: the first
capture spans the body garbage and the timestamp is lost. -/
theorem metadata_roundTrip_counterexample :
    (fileListString [] = "" ∧
      extractMetadata ("Seite" ++ "\n\n" ++ createMetadataComment [] ⟨2025, 1, 2, 3, 4, 5, 6⟩)
        = some ⟨some ⟨2025, 1, 2, 3, 4, 5, 6⟩, "\n"⟩)
    ∧ (fileListString [⟨"i1", " Bild", "image/png", "t"⟩] = " Bild (i1)" ∧
      extractMetadata ("Seite" ++ "\n\n"
          ++ createMetadataComment [⟨"i1", " Bild", "image/png", "t"⟩] ⟨2025, 1, 2, 3, 4, 5, 6⟩)
        = some ⟨some ⟨2025, 1, 2, 3, 4, 5, 6⟩, "Bild (i1)"⟩)
    ∧ (fileListString [⟨"i1", "a-->b", "image/png", "t"⟩] = "a-->b (i1)" ∧
      extractMetadata ("Seite" ++ "\n\n"
          ++ createMetadataComment [⟨"i1", "a-->b", "image/png", "t"⟩] ⟨2025, 1, 2, 3, 4, 5, 6⟩)
        = some ⟨some ⟨2025, 1, 2, 3, 4, 5, 6⟩, "a"⟩)
    ∧ (fileListString [⟨"i1", "Bild", "image/png", "t"⟩] = "Bild (i1)" ∧
      extractMetadata ("<!-- SYNC_METADATA:\nlast_sync: kaputt" ++ "\n\n"
          ++ createMetadataComment [⟨"i1", "Bild", "image/png", "t"⟩] ⟨2025, 1, 2, 3, 4, 5, 6⟩)
        = some ⟨none, "Bild (i1)"⟩) := by
  refine ⟨⟨rfl, by decide⟩, ⟨rfl, by decide⟩, ⟨rfl, by decide⟩, ⟨rfl, by decide⟩⟩
